import Mathlib

/-!
Verification development for the xdress dOxygen plugin
(src/xdress/doxygen.py).

The module parses the XML emitted by an external documentation tool,
renders the extracted data into numpydoc-style docstrings, and splices
the rendered text into the description registry of the host pipeline.
Below, each Python function of the source that the claims touch is
embedded as an executable Lean definition over explicit data types:

* Python dictionaries become association lists whose keys are unique by
  construction (insertion replaces an existing key, otherwise appends);
* fallible operations (dictionary indexing, attribute access on a
  missing XML node, the dynamic type errors of the CPython runtime)
  return values in the Except monad with an explicit PyErr;
* the textwrap.TextWrapper instances of the source are modelled by a
  greedy wrapper (see TextWrapper.fill below).
-/

/-- Dynamic errors of the Python runtime that the embedded code can
raise: KeyError (missing dictionary key), TypeError, IndexError,
AttributeError (missing XML node dereference), NameError, IOError
(missing file), and fuel exhaustion of a modelled while loop (which is
unreachable for real inputs but keeps the embedding total). -/
inductive PyErr where
  | keyError
  | typeError
  | indexError
  | attributeError
  | nameError
  | ioError
  | fuel
deriving DecidableEq, Repr

/-- Turns an optional value into a KeyError, the behaviour of indexing
a Python dict with a missing key. -/
def orKeyError {α : Type} (o : Option α) : Except PyErr α :=
  match o with
  | some a => Except.ok a
  | none => Except.error PyErr.keyError

/-- Turns an optional value into a TypeError, the behaviour of string
operations applied to Python None. -/
def orTypeError {α : Type} (o : Option α) : Except PyErr α :=
  match o with
  | some a => Except.ok a
  | none => Except.error PyErr.typeError

/-- Turns an optional value into an IndexError, the behaviour of
indexing an empty Python list. -/
def orIndexError {α : Type} (o : Option α) : Except PyErr α :=
  match o with
  | some a => Except.ok a
  | none => Except.error PyErr.indexError

/-- Turns an optional value into an IOError, the behaviour of opening
a file that the external tool never wrote. -/
def orIOError {α : Type} (o : Option α) : Except PyErr α :=
  match o with
  | some a => Except.ok a
  | none => Except.error PyErr.ioError

/-- Python s[:-1]: drops the last character of a string (identity on the
empty string). -/
def pyDropLastChar (s : String) : String :=
  String.mk s.data.dropLast

/-- Lexicographic comparison of character lists by code point, the
ordering Python uses on strings.  Defined structurally so that it
evaluates inside the kernel. -/
def charListLe : List Char → List Char → Bool
  | [], _ => true
  | _ :: _, [] => false
  | a :: as, b :: bs =>
    if a < b then true else if b < a then false else charListLe as bs

/-- Python string less-or-equal. -/
def pyLe (s t : String) : Bool :=
  charListLe s.data t.data

/-- Python str.startswith. -/
def pyStartsWith (s pre : String) : Bool :=
  pre.data.isPrefixOf s.data

/-- Python str.strip: removes leading and trailing whitespace. -/
def pyStrip (s : String) : String :=
  String.mk
    (((s.data.dropWhile Char.isWhitespace).reverse.dropWhile
      Char.isWhitespace).reverse)

/-- Fuel-driven splitter on a nonempty separator, structural so that it
evaluates inside the kernel.  The fuel is always sufficient at the call
site below. -/
def splitOnFuel (sep : List Char) : Nat → List Char → List Char → List String
  | 0, l, acc => [String.mk (acc.reverse ++ l)]
  | fuel + 1, l, acc =>
    match l with
    | [] => [String.mk acc.reverse]
    | c :: cs =>
      if sep.isPrefixOf (c :: cs) then
        String.mk acc.reverse ::
          splitOnFuel sep fuel ((c :: cs).drop sep.length) []
      else splitOnFuel sep fuel cs (c :: acc)

/-- Python str.split(sep) for a nonempty separator (the splitOn used by
the source on the namespace and path separators and on newlines). -/
def pySplitOn (sep s : String) : List String :=
  if sep.data.isEmpty then [s]
  else splitOnFuel sep.data (s.data.length + 1) s.data []

/-- Python list(set(xs)) followed by a sort: the set iteration order is
unspecified, so only the underlying set matters; this keeps the last
occurrence of each element, which the subsequent sort canonicalises. -/
def pySetList : List String → List String
  | [] => []
  | x :: xs => if x ∈ xs then pySetList xs else x :: pySetList xs

/-- Insertion step of the model of Python list.sort (ascending,
stable). -/
def insertSorted (x : String) : List String → List String
  | [] => [x]
  | y :: ys => if pyLe x y then x :: y :: ys else y :: insertSorted x ys

/-- Python list.sort (ascending lexicographic order on strings),
modelled by insertion sort. -/
def pySort (l : List String) : List String :=
  l.foldr insertSorted []

/-- Python list.insert(n, x): inserts before position n, clamping n to
the list length. -/
def pyInsertAt {α : Type} (n : Nat) (x : α) (xs : List α) : List α :=
  xs.take n ++ [x] ++ xs.drop n

/-- Substring test on character lists, used for the Python expression
needle in haystack on strings. -/
def isSubListOf (n : List Char) : List Char → Bool
  | [] => n.isEmpty
  | c :: t => n.isPrefixOf (c :: t) || isSubListOf n t

/-- Python needle in haystack for strings (substring containment). -/
def pyIn (needle hay : String) : Bool :=
  isSubListOf needle.data hay.data

/-- Python str.splitlines restricted to the newline character: splits
on every newline and drops a trailing empty piece; the empty string
yields no lines. -/
def pySplitlines (s : String) : List String :=
  if s = "" then []
  else
    let parts := pySplitOn "\n" s
    if parts.getLast? = some "" then parts.dropLast else parts

/-- Single-key write of a Python dict modelled as an association list:
replaces the value at an existing key, otherwise appends a new pair. -/
def pyDictInsert {α : Type} (d : List (String × α)) (k : String) (v : α) :
    List (String × α) :=
  if (d.map Prod.fst).contains k then
    d.map (fun p => if p.1 = k then (k, v) else p)
  else
    d ++ [(k, v)]

/-- Builds a Python dict from a list of key-value pairs, later pairs
overwriting earlier ones (the semantics of dict(items)). -/
def pyDictOf {α : Type} (l : List (String × α)) : List (String × α) :=
  l.foldl (fun d p => pyDictInsert d p.1 p.2) []

/-- Python dict.update(new) on a dict d: every pair of new is written
into d in order, overwriting existing keys. -/
def pyDictUpdate {α : Type} (d new : List (String × α)) : List (String × α) :=
  new.foldl (fun acc p => pyDictInsert acc p.1 p.2) d

/-- Effectful filter, used for the Python builtin filter when the
predicate itself can raise. -/
def pyFilterM {α : Type} (p : α → Except PyErr Bool) :
    List α → Except PyErr (List α)
  | [] => Except.ok []
  | x :: xs => do
    let b ← p x
    let rest ← pyFilterM p xs
    if b then Except.ok (x :: rest) else Except.ok rest

/-- Model of Python textwrap.TextWrapper: a target width plus an
initial and a continuation indent. -/
structure TextWrapper where
  width : Nat
  initial_indent : String
  subsequent_indent : String

/-- Word accumulation loop of the whitespace splitter. -/
def wordsAux : List Char → List Char → List String
  | [], acc => if acc.isEmpty then [] else [String.mk acc.reverse]
  | c :: cs, acc =>
    if c.isWhitespace then
      if acc.isEmpty then wordsAux cs []
      else String.mk acc.reverse :: wordsAux cs []
    else wordsAux cs (c :: acc)

/-- Whitespace word-splitting used by the wrapper model. -/
def splitWs (s : String) : List String :=
  wordsAux s.data []

/-- Greedy line-packing loop of the wrapper model: keeps extending the
current line while the next word still fits within the width. -/
def fillAux (w : TextWrapper) : List String → String → List String
  | [], cur => [cur]
  | word :: rest, cur =>
    let cand := cur ++ " " ++ word
    if cand.length ≤ w.width then fillAux w rest cand
    else cur :: fillAux w rest (w.subsequent_indent ++ word)

/-- Modelled from the spec: the source delegates wrapping to the Python
textwrap.TextWrapper class, an external library that is not part of
src/. Per the spec (section 4.1) the formatter takes a raw string and a
column width and produces lines no wider than the limit, breaking on
whitespace, with a configurable first-line indent and continuation
indent; empty input yields empty output. The model collapses whitespace
runs and packs words greedily; an over-long single word occupies its
own line. -/
def TextWrapper.fill (w : TextWrapper) (s : String) : String :=
  match splitWs s with
  | [] => ""
  | word :: rest =>
    String.intercalate "\n" (fillAux w rest (w.initial_indent ++ word))

/-- Wrapper for top-level class and function docstring bodies
(width 68, no indents). -/
def wrap_68 : TextWrapper :=
  { width := 68, initial_indent := "", subsequent_indent := "" }

/-- Wrapper for class-method docstring bodies (width 64, no indents). -/
def wrap_64 : TextWrapper :=
  { width := 64, initial_indent := "", subsequent_indent := "" }

/-- Wrapper for attribute and method listing lines (width 64, hanging
indent of four spaces). -/
def attrib_wrap : TextWrapper :=
  { width := 64, initial_indent := "", subsequent_indent := "    " }

/-!
XML data model.  The etree fragments that the source walks are modelled
by explicit structures.  A field of type Option String stands for the
text of an XML node that the source dereferences after a find call:
none models a Python None text.  Nodes whose absence the source never
guards against (and which every claim input provides) are modelled as
present.
-/

/-- Entry of a parameterlist node: a parametername and the text of the
parameterdescription paragraph. -/
structure ParamItem where
  name : String
  desc : String
deriving DecidableEq, Repr

/-- Paragraph of a detaileddescription node: its direct text (which
etree reports as None when absent) and an optional parameterlist
child. -/
structure Para where
  text : Option String
  plist : Option (List ParamItem)
deriving DecidableEq, Repr

/-- Formal parameter node (param) of a memberdef: the declname text and
the type text. -/
structure ParamDecl where
  declname : String
  type : Option String
deriving DecidableEq, Repr

/-- Member definition node (memberdef) as consumed by _parse_func,
_parse_variable and _parse_common.  For a briefdescription, none
models a missing para child (caught as AttributeError and turned into
an empty string), some none a para whose text is None. -/
structure MemberXml where
  id : String
  kind : String
  name : String
  dd_paras : List Para
  type : Option String
  params : List ParamDecl
  argsstring : Option String
  brief_para : Option (Option String)
  definition : Option String
deriving DecidableEq, Repr

/-- Section definition node (sectiondef): its kind attribute and its
member definitions. -/
structure SectionXml where
  kind : String
  members : List MemberXml
deriving DecidableEq, Repr

/-- Class document (compounddef of kind class): section definitions,
the compoundname text and the file attribute of the location node. -/
structure ClassXml where
  sections : List SectionXml
  compoundname : String
  location_file : String
deriving DecidableEq, Repr

/-- Namespace document as consumed by parse_function: its section
definitions. -/
structure NsXml where
  sections : List SectionXml
deriving DecidableEq, Repr

/-!
Parsed dictionaries.  The duck-typed member dictionaries built by the
parsing stage and consumed by the rendering stage are modelled by one
structure covering both the function and the variable shape.
-/

/-- Value stored under one argument name in the args mapping built by
_parse_func: the declared type text and, when the detailed description
carried a parameter list, the description pulled from it (the desc key
is absent otherwise, modelled as none). -/
structure ArgEntry where
  type : Option String
  desc : Option String
deriving DecidableEq, Repr

/-- Member dictionary produced by the parsing stage (the return shape
of _parse_func or _parse_variable merged with _parse_common) and
consumed by the renderers.  Fields that only one of the two kinds
carries are optional.  The briefdescription is always a string because
_parse_common coerces both a missing paragraph and a None text to the
empty string, while the detaileddescription keeps a possible None. -/
structure FuncDict where
  briefdescription : String
  detaileddescription : Option String
  ret_type : Option String
  args : Option (List (String × ArgEntry))
  arg_string : Option String
  type : Option String
  definition : Option String
deriving DecidableEq, Repr

/-- Default member dictionary used as the base record that the parsing
functions fill in. -/
def emptyFuncDict : FuncDict :=
  { briefdescription := ""
    detaileddescription := none
    ret_type := none
    args := none
    arg_string := none
    type := none
    definition := none }

/-- One step of the argument loop of _parse_func (lines 688 to 696):
stores the declared type under the declared name and, when the
argument-description dict from the detailed description exists, the
description looked up under the declared name (KeyError when the
declared name is not listed). -/
def parseArgStep (arg_dict : Option (List (String × String)))
    (acc : List (String × ArgEntry)) (param : ParamDecl) :
    Except PyErr (List (String × ArgEntry)) :=
  match arg_dict with
  | none =>
    Except.ok
      (pyDictInsert acc param.declname { type := param.type, desc := none })
  | some d => do
    let ds ← orKeyError (List.lookup param.declname d)
    Except.ok
      (pyDictInsert acc param.declname
        { type := param.type, desc := some ds })

/-- Embeds _parse_func (src/xdress/doxygen.py, lines 650 to 705): reads
the detaileddescription paragraphs, distinguishing the one-paragraph
shape (text only, no argument-description dict), the two-paragraph
shape (free text plus a parameterlist whose entries are collected into
a dict keyed by parameter name) and every other count (empty text, no
argument-description dict); then reads the return type text, builds the
args mapping from the declared parameters (each with its type text and,
when the argument-description dict exists, the description looked up
under the declared name, a lookup that raises KeyError when absent),
coerces an empty args mapping to None, and reads the argsstring text.
A two-paragraph description without a parameterlist child raises
AttributeError, as the source dereferences the find result
unconditionally. -/
def _parse_func (f_xml : MemberXml) : Except PyErr FuncDict := do
  let num_dd_paras := f_xml.dd_paras.length
  let (mem_ddstr, arg_dict) ←
    if num_dd_paras = 1 then do
      let p0 ← orIndexError f_xml.dd_paras.head?
      Except.ok (p0.text, (none : Option (List (String × String))))
    else if num_dd_paras = 2 then do
      let p0 ← orIndexError f_xml.dd_paras.head?
      let p1 ← orIndexError (f_xml.dd_paras.get? 1)
      let items ← match p1.plist with
        | some its => Except.ok its
        | none => Except.error PyErr.attributeError
      let arg_dict :=
        items.foldl (fun d it => pyDictInsert d it.name it.desc) []
      Except.ok (p0.text, some arg_dict)
    else
      Except.ok (some "", none)
  let ret_type := f_xml.type
  let args ← f_xml.params.foldlM (parseArgStep arg_dict)
    ([] : List (String × ArgEntry))
  let args' := if args.length = 0 then none else some args
  Except.ok { emptyFuncDict with
    detaileddescription := mem_ddstr
    ret_type := ret_type
    args := args'
    arg_string := f_xml.argsstring }

/-- Embeds _parse_variable (lines 708 to 724): the detailed description
is the text of the first paragraph when one exists (which may be None)
and the empty string otherwise (the AttributeError branch), plus the
type text. -/
def _parse_variable (v_xml : MemberXml) : FuncDict :=
  let mem_ddstr : Option String :=
    match v_xml.dd_paras.head? with
    | some p => p.text
    | none => some ""
  { emptyFuncDict with
    detaileddescription := mem_ddstr
    type := v_xml.type }

/-- Embeds _parse_common (lines 727 to 761): fills in the brief
description (empty string when the paragraph is missing or its text is
None) and the definition text. -/
def _parse_common (xml : MemberXml) (the_dict : FuncDict) : FuncDict :=
  let mem_bdstr :=
    match xml.brief_para with
    | none => ""
    | some none => ""
    | some (some s) => s
  { the_dict with
    briefdescription := mem_bdstr
    definition := xml.definition }

/-!
Docstring renderers.
-/

/-- Python percent-s formatting of a value that may be None: None
renders as the four-character string None. -/
def pyFormatS (o : Option String) : String :=
  match o with
  | some s => s
  | none => "None"

/-- Overload notice template (the module-level _overload_msg string,
lines 914 to 919), with the f_type placeholder substituted. -/
def _overload_msg (f_type : String) : String :=
  "\nThis " ++ f_type ++
  " was overloaded in the C-based source. To overcome this we\n" ++
  "ill put the relevant docstring for each version below. " ++
  "Each version will begin\nwith a line of # characters.\n"

/-- Parameter strings of func_docstr (lines 274 to 283): the literal
None line when the args field is None, otherwise one name-colon-type
string per argument, with the optional description appended on its own
line. -/
def paramsOf (func_dict : FuncDict) : List String :=
  match func_dict.args with
  | none => ["None"]
  | some args => args.map (fun p =>
      let s := p.1 ++ " : " ++ pyFormatS p.2.type
      match p.2.desc with
      | some ds => s ++ "\n" ++ ds
      | none => s)

/-- Return strings of func_docstr (lines 285 to 296): the literal None
line when the return type is None, otherwise a single res1 entry (the
return type read from the XML is always a single string, so the
isinstance branch of the source applies). -/
def retsOf (func_dict : FuncDict) : List String :=
  match func_dict.ret_type with
  | none => ["None"]
  | some s => ["res1 : " ++ s]

/-- Rendering of one entry of the Parameters section (lines 309 to
322): the first line is wrapped and terminated by a newline, the
remaining lines are wrapped and concatenated without separators, and
the entry ends with a blank line exactly when it had more than one
line. -/
def renderOneParam (w : TextWrapper) (p : String) : Except PyErr String := do
  let lines := pySplitlines p
  let l0 ← orIndexError lines.head?
  let body := (lines.drop 1).foldl (fun acc l => acc ++ w.fill l)
    (w.fill l0 ++ "\n")
  Except.ok (body ++ if 1 < lines.length then "\n\n" else "\n")

/-- Rendering of one entry of the Returns section (lines 331 to 338):
like a parameter entry but always terminated by a single extra
newline. -/
def renderOneRet (w : TextWrapper) (r : String) : Except PyErr String := do
  let lines := pySplitlines r
  let l0 ← orIndexError lines.head?
  let body := (lines.drop 1).foldl (fun acc l => acc ++ w.fill l)
    (w.fill l0 ++ "\n")
  Except.ok (body ++ "\n")

/-- Rendering of the whole Parameters body (the loop of lines 309 to
322). -/
def renderParamsAll (w : TextWrapper) (params : List String) :
    Except PyErr String :=
  params.foldlM (fun acc p => do
    let r ← renderOneParam w p
    Except.ok (acc ++ r)) ""

/-- Rendering of the whole Returns body (the loop of lines 331 to
338). -/
def renderRetsAll (w : TextWrapper) (rets : List String) :
    Except PyErr String :=
  rets.foldlM (fun acc r => do
    let s ← renderOneRet w r
    Except.ok (acc ++ s)) ""

/-- Header of the Parameters section as emitted by lines 303 to 306. -/
def paramsHeader (w : TextWrapper) : String :=
  w.fill "Parameters" ++ "\n" ++ w.fill "----------" ++ "\n"

/-- Header of the Returns section as emitted by lines 325 to 328. -/
def returnsHeader (w : TextWrapper) : String :=
  w.fill "Returns" ++ "\n" ++ w.fill "-------" ++ "\n"

/-- Embeds func_docstr (lines 241 to 347): picks the wrap profile by
is_method, joins the brief and detailed descriptions with a blank line
(a None detailed description raises TypeError, as the Python join of a
None does), renders the Parameters section from paramsOf and the
Returns section from retsOf. -/
def func_docstr (func_dict : FuncDict) (is_method : Bool) :
    Except PyErr String := do
  let wrapper := if is_method then wrap_64 else wrap_68
  let detailed_desc ← orTypeError func_dict.detaileddescription
  let desc :=
    (String.intercalate "\n\n"
      [func_dict.briefdescription, detailed_desc])
  let desc := pyStrip desc
  let pPart ← renderParamsAll wrapper (paramsOf func_dict)
  let rPart ← renderRetsAll wrapper (retsOf func_dict)
  Except.ok (wrapper.fill desc ++ "\n\n"
    ++ paramsHeader wrapper ++ pPart
    ++ returnsHeader wrapper ++ rPart)

/-- Parsed class dictionary (the return shape of parse_class): the
section sub-dictionaries plus the kls_name, members, file_name and
namespace keys (the namespace key is the field ns here). -/
structure ClassDict where
  sections : List (String × List (String × FuncDict))
  kls_name : String
  members_methods : List String
  members_variables : List String
  file_name : String
  ns : String
deriving DecidableEq, Repr

/-- Instance-variable dictionary of class_docstr (lines 174 to 181):
the flattened items of every section whose label contains attrib as a
substring, collected into one dict (later sections overwrite duplicate
member names). -/
def ivarsOf (class_dict : ClassDict) : List (String × FuncDict) :=
  pyDictOf
    (((class_dict.sections.filter (fun s => pyIn "attrib" s.1)).map
      Prod.snd).flatten)

/-- Function dictionary of class_docstr (lines 175 to 186): the
flattened items of every section whose label contains func as a
substring. -/
def funcsOf (class_dict : ClassDict) : List (String × FuncDict) :=
  pyDictOf
    (((class_dict.sections.filter (fun s => pyIn "func" s.1)).map
      Prod.snd).flatten)

/-- Attributes listing of class_docstr (lines 195 to 200): one hanging
indented line per class variable, looking the variable up in the
flattened instance-variable dict (KeyError when absent) and joining its
brief and detailed descriptions (TypeError when the detailed text is
None). -/
def renderAttrs (ivars : List (String × FuncDict)) :
    List String → Except PyErr String
  | [] => Except.ok ""
  | i :: rest => do
    let e ← orKeyError (List.lookup i ivars)
    let dd ← orTypeError e.detaileddescription
    let desc := e.briefdescription ++ " " ++ dd
    let var_msg := i ++ " (" ++ pyFormatS e.type ++ ") : " ++ pyStrip desc
    let tail ← renderAttrs ivars rest
    Except.ok (attrib_wrap.fill var_msg ++ "\n" ++ tail)

/-- Method listing of class_docstr (lines 215 to 222): one line per
method in the given order, annotated with the brief description only
when desc_funcs is set and the description is nonempty. -/
def renderMethodList (funcs : List (String × FuncDict)) (desc_funcs : Bool) :
    List String → Except PyErr String
  | [] => Except.ok ""
  | i :: rest => do
    let e ← orKeyError (List.lookup i funcs)
    let desc := e.briefdescription
    let fun_msg :=
      if desc.length = 0 ∨ desc_funcs = false then i
      else i ++ " : " ++ pyStrip desc
    let tail ← renderMethodList funcs desc_funcs rest
    Except.ok (attrib_wrap.fill fun_msg ++ "\n" ++ tail)

/-- Method reordering of class_docstr (lines 209 to 213): sort the
deduplicated method names ascending, pop the element that sorted last
(IndexError, modelled as none, when the list is empty) and re-insert it
at index 1. -/
def methodOrder0 (methods : List String) : Option (List String) :=
  let l := pySort methods
  match l.getLast? with
  | none => none
  | some x => some (pyInsertAt 1 x l.dropLast)

/-- Deduplicated and sorted method-name list of a class, the list the
claims about the method ordering quantify over. -/
def sortedMethodSet (ms : List String) : List String :=
  pySort (pySetList ms)

/-- Header of the Attributes section as emitted by lines 190 to 193. -/
def attrsHeader : String :=
  wrap_68.fill "Attributes" ++ "\n" ++ wrap_68.fill "----------" ++ "\n"

/-- Header of the Methods section as emitted by lines 204 to 207. -/
def methodsHeader : String :=
  wrap_68.fill "Methods" ++ "\n" ++ wrap_68.fill "-------" ++ "\n"

/-- Notes section of a class docstring as emitted by lines 226 to
236. -/
def notesSection (class_dict : ClassDict) : String :=
  wrap_68.fill "Notes" ++ "\n" ++ wrap_68.fill "-----" ++ "\n"
  ++ wrap_68.fill ("This class was defined in " ++ class_dict.file_name)
  ++ "\n\n"
  ++ wrap_68.fill ("The class is found in the \"" ++ class_dict.ns
    ++ "\" namespace")

/-- Embeds class_docstr (lines 144 to 238): takes the class body text
from the entry of the public-func section named like the class itself,
renders the Attributes section from the members variable list, reorders
the deduplicated method names with methodOrder0 and renders the Methods
section, and closes with the Notes section naming the originating file
and namespace. -/
def class_docstr (class_dict : ClassDict) (desc_funcs : Bool) :
    Except PyErr String := do
  let class_name := (pySplitOn "::" class_dict.kls_name).getLastD ""
  let pubfun ← orKeyError (List.lookup "public-func" class_dict.sections)
  let clsEntry ← orKeyError (List.lookup class_name pubfun)
  let cls_msg ← orTypeError clsEntry.detaileddescription
  let methods := pySetList class_dict.members_methods
  let vars_list := class_dict.members_variables
  let ivars := ivarsOf class_dict
  let funcs := funcsOf class_dict
  let attrs ← renderAttrs ivars vars_list
  let mo ← orIndexError (methodOrder0 methods)
  let mets ← renderMethodList funcs desc_funcs mo
  Except.ok (wrap_68.fill cls_msg ++ "\n\n"
    ++ attrsHeader ++ attrs ++ "\n\n"
    ++ methodsHeader ++ mets ++ "\n"
    ++ notesSection class_dict)

/-!
Class parsing, including the duplicate-name resolution loop, and the
execute stage of the plugin.
-/

/-- Embeds the duplicate-name while loop of parse_class (lines 883 to
888): while the candidate name is already a key, strip the last
character (only from the second iteration on) and append the decimal
counter.  The fuel argument makes the loop total; in parse_class it is
instantiated so that it never runs out on real inputs. -/
def add_suffix_loop (keys : List String) : Nat → String → Nat → Option String
  | 0, _, _ => none
  | fuel + 1, mem_name, i =>
    if mem_name ∈ keys then
      let m := if 1 < i then pyDropLastChar mem_name else mem_name
      add_suffix_loop keys fuel (m ++ toString i) (i + 1)
    else some mem_name

/-- Key under which parse_class stores a member whose name may already
be taken: the result of the duplicate-name loop started at counter 1,
with fuel one more than the number of existing keys. -/
def sec_new_key (keys : List String) (mem_name : String) : Option String :=
  add_suffix_loop keys (keys.length + 1) mem_name 1

/-- Kind dispatch of one member of parse_class (lines 870 to 875): a
kind that is neither function nor variable leaves the Python name
mem_dict unbound (a NameError on the first member), modelled as an
error. -/
def parse_member_dict (mem : MemberXml) : Except PyErr FuncDict :=
  if mem.kind = "function" then _parse_func mem
  else if mem.kind = "variable" then Except.ok (_parse_variable mem)
  else Except.error PyErr.nameError

/-- Key resolution of one member insertion: the duplicate-name loop,
with exhaustion of the (always sufficient) fuel mapped to an error. -/
def resolveKey (sec_dict : List (String × FuncDict)) (mem : MemberXml) :
    Except PyErr String :=
  match sec_new_key (sec_dict.map Prod.fst) mem.name with
  | some k => Except.ok k
  | none => Except.error PyErr.fuel

/-- One member insertion of parse_class (lines 865 to 890): parse the
member by kind, merge the common fields, resolve the key with the
duplicate-name loop and store the entry. -/
def parse_member_into (sec_dict : List (String × FuncDict))
    (mem : MemberXml) : Except PyErr (List (String × FuncDict)) := do
  let mem_dict ← parse_member_dict mem
  let mem_dict := _parse_common mem mem_dict
  let key ← resolveKey sec_dict mem
  Except.ok (sec_dict ++ [(key, mem_dict)])

/-- Builds one section dictionary of parse_class by inserting every
member definition in order. -/
def parse_section (sec : SectionXml) : Except PyErr (List (String × FuncDict)) :=
  sec.members.foldlM parse_member_into []

/-- Index entry for one class, as built by parse_index_xml: the file
locator, the namespace and the raw variable and method name lists. -/
structure KlsIdx where
  file_name : String
  ns : String
  vars : List String
  methods : List String
deriving DecidableEq, Repr

/-- Embeds parse_class (lines 783 to 906): parses every sectiondef of
the class document into a section dictionary (a duplicate section kind
overwrites the earlier one, as a dict write does), then attaches the
compound name, the members lists from the index entry, the base name of
the location file and the enclosing namespace. -/
def parse_class (x : ClassXml) (class_dict : KlsIdx) :
    Except PyErr ClassDict := do
  let data ← x.sections.foldlM
    (fun acc sec => do
      let sec_dict ← parse_section sec
      Except.ok (pyDictInsert acc sec.kind sec_dict))
    ([] : List (String × List (String × FuncDict)))
  Except.ok
    { sections := data
      kls_name := x.compoundname
      members_methods := class_dict.methods
      members_variables := class_dict.vars
      file_name := (pySplitOn "/" x.location_file).getLastD ""
      ns := String.intercalate "::"
        ((pySplitOn "::" x.compoundname).dropLast) }

/-- Index entry for one free function, as built by parse_index_xml: the
namespace file locator, the member refid and the namespace name. -/
structure FuncIdxEntry where
  file_name : String
  refid : String
  ns : String
deriving DecidableEq, Repr

/-- Embeds parse_function (lines 764 to 780): opens the namespace
document named by the index entry, takes the first sectiondef of kind
func (IndexError when there is none), takes the first memberdef whose
id equals the refid, and runs the function and common parsers on it. -/
def parse_function (ns_files : List (String × NsXml)) (func_dict : FuncIdxEntry) :
    Except PyErr FuncDict := do
  let root ← orIOError (List.lookup func_dict.file_name ns_files)
  let func_sec ← orIndexError
    ((root.sections.filter (fun s => s.kind = "func")).head?)
  let this_func ← orIndexError
    ((func_sec.members.filter (fun m => m.id = func_dict.refid)).head?)
  let ret_dict ← _parse_func this_func
  Except.ok (_parse_common this_func ret_dict)

/-- Embeds merge_configs (lines 922 to 925): copies the old mapping
into a fresh dict and writes every pair of the new mapping over it. -/
def merge_configs (old new : List (String × String)) :
    List (String × String) :=
  pyDictUpdate (pyDictOf old) new

/-!
Execute stage.  The host pipeline hands the plugin a manifest of
(name, source file, module) triples for classes and functions and a
nested registry env keyed by module then by symbol.  The embedded
processing loops mirror XDressPlugin.execute (lines 970 to 1081).
-/

/-- Manifest triple of the host pipeline (an entry of rc.classes or
rc.functions): subscript 0 is the symbol name and subscript 2 the
module label, as used by execute. -/
structure ApiName where
  name : String
  srcfile : String
  tarname : String
deriving DecidableEq, Repr

/-- Docstrings sub-dictionary of a registry entry: the entry stored
under the key named class (field cls here) and the per-method
mapping. -/
structure DocDict where
  cls : Option String
  methods : List (String × String)
deriving DecidableEq, Repr

/-- Registry entry of one symbol in rc.env: the method-name list (the
first components of the keys of its methods mapping), the docstrings
dictionary of a class symbol and the docstring text of a function
symbol. -/
structure EnvEntry where
  methods : List String
  docstrings : Option DocDict
  docstring : Option String
deriving DecidableEq, Repr

/-- Registry of the host pipeline, keyed by module and then by
symbol. -/
def Env : Type := List (String × List (String × EnvEntry))

/-- Replaces the entry of one symbol inside the registry. -/
def envUpdate (env : Env) (tarname name : String) (e : EnvEntry) : Env :=
  env.map (fun m =>
    if m.1 = tarname then (m.1, pyDictInsert m.2 name e) else m)

/-- Looks a symbol up in the registry (a missing module or symbol is a
KeyError, as in rc.env lookups). -/
def envGet (env : Env) (tarname name : String) : Except PyErr EnvEntry := do
  let mods ← orKeyError (List.lookup tarname env)
  orKeyError (List.lookup name mods)

/-- Match collection for one requested method name (lines 1023 to
1031): every entry of every section whose label contains func whose
stored name starts with the requested name, in section order.  The
source filters the keys of each section dictionary and looks each
matching key up again; because dictionary keys are unique, this equals
filtering the entries directly. -/
def methodMatches (parsed : ClassDict) (m : String) : List FuncDict :=
  ((parsed.sections.filter (fun s => pyIn "func" s.1)).map
    (fun s => (s.2.filter (fun p => pyStartsWith p.1 m)).map Prod.snd)).flatten

/-- Banner line separating the renderings of an overloaded method. -/
def methodBanner : String := String.mk (List.replicate 64 (Char.ofNat 35))

/-- Banner separator for an overloaded free function (a newline-framed
line of 72 hash characters). -/
def funcBanner : String :=
  "\n\n" ++ String.mk (List.replicate 72 (Char.ofNat 35)) ++ "\n\n"

/-- Dispatch for one requested method name (lines 1033 to 1050): none
models the skip-with-diagnostic path of zero matches, one match renders
directly, several matches render the overload notice followed by the
individual renderings joined by the method banner. -/
def methodAction (parsed : ClassDict) (m : String) :
    Except PyErr (Option String) := do
  let mtchs := methodMatches parsed m
  if mtchs.length = 1 then do
    let d ← orIndexError mtchs.head?
    let m_ds ← func_docstr d true
    Except.ok (some m_ds)
  else if 1 < mtchs.length then do
    let ds_list ← mtchs.mapM (fun d => func_docstr d true)
    let m_ds := wrap_64.fill (_overload_msg "method") ++ "\n\n"
      ++ String.intercalate (methodBanner ++ "\n\n") ds_list
    Except.ok (some m_ds)
  else
    Except.ok none

/-- Method loop of execute for one class (lines 1022 to 1050): folds
methodAction over the requested method names, writing each produced
docstring into the methods mapping and skipping the names with zero
matches. -/
def processMethods (parsed : ClassDict) (rc_methods : List String)
    (acc : List (String × String)) : Except PyErr (List (String × String)) :=
  rc_methods.foldlM
    (fun acc m => do
      let r ← methodAction parsed m
      match r with
      | some m_ds => Except.ok (pyDictInsert acc m m_ds)
      | none => Except.ok acc)
    acc

/-- Class branch of execute for one manifest entry (lines 991 to 1050):
a symbol absent from the class index is skipped (diagnostic only, the
registry is untouched); otherwise the class document is opened from the
xml output directory (IOError when the external tool never produced
it), parsed, rendered, and the class and method docstrings are written
into the docstrings dictionary of the registry entry (created when
absent). -/
def processClassSym (class_files : List (String × ClassXml))
    (classes : List (String × KlsIdx)) (build_dir : String) (c : ApiName)
    (env : Env) : Except PyErr Env :=
  match List.lookup c.name classes with
  | none => Except.ok env
  | some this_kls => do
    let fn := build_dir ++ "/xml/" ++ this_kls.file_name
    let xml ← orIOError (List.lookup (fn ++ ".xml") class_files)
    let parsed ← parse_class xml this_kls
    let entry ← envGet env c.tarname c.name
    let ds0 := match entry.docstrings with
      | none => { cls := none, methods := [] : DocDict }
      | some dd => dd
    let cds ← class_docstr parsed false
    let methods1 ← processMethods parsed entry.methods ds0.methods
    let entry1 := { entry with
      docstrings := some { cls := some cds, methods := methods1 } }
    Except.ok (envUpdate env c.tarname c.name entry1)

/-- Class loop of execute (lines 991 to 1050) over the whole manifest. -/
def processClasses (class_files : List (String × ClassXml))
    (classes : List (String × KlsIdx)) (build_dir : String) :
    List ApiName → Env → Except PyErr Env
  | [], env => Except.ok env
  | c :: rest, env => do
    let env1 ← processClassSym class_files classes build_dir c env
    processClasses class_files classes build_dir rest env1

/-- Membership test the function loop of execute actually evaluates
(line 1060): the Python expression f in x, where f is the whole
manifest triple and x a string key of the function index.  CPython
raises TypeError for a tuple on the left of a string containment. -/
def tupleInStr (_f : ApiName) (_x : String) : Except PyErr Bool :=
  Except.error PyErr.typeError

/-- Function branch of execute for one manifest entry (lines 1053 to
1081).  The source filters the function-index keys with the predicate
tupleInStr (TypeError on the first key tested), then tests the filter
result against None, which it never is, so the skip branch is dead: a
single match renders via an index lookup keyed by the manifest triple
itself (a KeyError, since the index is keyed by name strings), and
every other count, including zero, takes the overload branch and writes
the overload banner joined with the renderings of the matches. -/
def processFuncSym (ns_files : List (String × NsXml))
    (funcs : List (String × FuncIdxEntry)) (f : ApiName) (env : Env) :
    Except PyErr Env := do
  let mtchs ← pyFilterM (tupleInStr f) (funcs.map Prod.fst)
  let f_ds ←
    if mtchs.length = 1 then do
      let fd ← orKeyError (none : Option FuncIdxEntry)
      let pf ← parse_function ns_files fd
      func_docstr pf false
    else do
      let ds_list ← mtchs.mapM (fun i => do
        let fe ← orKeyError (List.lookup i funcs)
        let pf ← parse_function ns_files fe
        func_docstr pf false)
      Except.ok (wrap_68.fill (_overload_msg "function") ++ "\n\n"
        ++ String.intercalate funcBanner ds_list)
  let entry ← envGet env f.tarname f.name
  Except.ok (envUpdate env f.tarname f.name
    { entry with docstring := some f_ds })

/-- Function loop of execute (lines 1053 to 1081) over the whole
manifest. -/
def processFunctions (ns_files : List (String × NsXml))
    (funcs : List (String × FuncIdxEntry)) :
    List ApiName → Env → Except PyErr Env
  | [], env => Except.ok env
  | f :: rest, env => do
    let env1 ← processFuncSym ns_files funcs f env
    processFunctions ns_files funcs rest env1

/-!
Shared lemmas about the Python dictionary model.
-/

/-- Replacing the value stored at one key does not change the key
list. -/
theorem keys_replaceVal {α : Type} (d : List (String × α)) (k : String)
    (v : α) :
    (d.map (fun p => if p.1 = k then (k, v) else p)).map Prod.fst =
      d.map Prod.fst := by
  induction d with
  | nil => rfl
  | cons p t ih =>
    by_cases hp : p.1 = k
    · simp [hp, ih]
    · simp [hp, ih]

/-- Lookup of a key that is absent from the key list yields none. -/
theorem lookup_eq_none_of_not_mem {α : Type} (d : List (String × α))
    (k : String) (h : k ∉ d.map Prod.fst) : List.lookup k d = none := by
  induction d with
  | nil => rfl
  | cons p t ih =>
    simp only [List.map_cons, List.mem_cons, not_or] at h
    have hne : (k == p.1) = false := by
      simpa using h.1
    simp [List.lookup, hne, ih h.2]

/-- Lookup in a list extended by one final pair. -/
theorem lookup_append_single {α : Type} (d : List (String × α))
    (k : String) (v : α) (k' : String) :
    List.lookup k' (d ++ [(k, v)]) =
      match List.lookup k' d with
      | some w => some w
      | none => if k' = k then some v else none := by
  induction d with
  | nil =>
    by_cases hk : k' = k
    · simp [List.lookup, hk]
    · have hne : (k' == k) = false := by simpa using hk
      simp [List.lookup, hne, hk]
  | cons p t ih =>
    by_cases hp : k' = p.1
    · simp [List.lookup, hp]
    · have hne : (k' == p.1) = false := by simpa using hp
      simp only [List.cons_append, List.lookup, hne]
      exact ih

/-- Lookup of the replaced key reads the new value once the key is
present. -/
theorem lookup_replaceVal_eq {α : Type} (d : List (String × α)) (k : String)
    (v : α) (h : k ∈ d.map Prod.fst) :
    List.lookup k (d.map (fun p => if p.1 = k then (k, v) else p)) =
      some v := by
  induction d with
  | nil => simp at h
  | cons p t ih =>
    simp only [List.map_cons]
    by_cases hp : p.1 = k
    · rw [if_pos hp]
      simp [List.lookup]
    · rw [if_neg hp]
      have h2 : k ∈ t.map Prod.fst := by
        rcases (by simpa using h : k = p.1 ∨ k ∈ t.map Prod.fst) with hc | hc
        · exact absurd hc.symm hp
        · exact hc
      have hne : (k == p.1) = false := by
        simp only [beq_eq_false_iff_ne, ne_eq]
        intro hq
        exact hp hq.symm
      simp [List.lookup, hne, ih h2]

/-- Lookup of any other key is unaffected by the replacement. -/
theorem lookup_replaceVal_ne {α : Type} (d : List (String × α))
    (k : String) (v : α) (k' : String) (h : k' ≠ k) :
    List.lookup k' (d.map (fun p => if p.1 = k then (k, v) else p)) =
      List.lookup k' d := by
  induction d with
  | nil => rfl
  | cons p t ih =>
    simp only [List.map_cons]
    by_cases hp : p.1 = k
    · rw [if_pos hp]
      have hne : (k' == k) = false := by simpa using h
      have hne2 : (k' == p.1) = false := by rw [hp]; exact hne
      simp [List.lookup, hne, hne2, ih]
    · rw [if_neg hp]
      by_cases hk : k' = p.1
      · simp [List.lookup, hk]
      · have hne : (k' == p.1) = false := by simpa using hk
        simp [List.lookup, hne, ih]

/-- Writing one key leaves every other key in place and adds at most
the written key. -/
theorem mem_keys_pyDictInsert {α : Type} (d : List (String × α))
    (k : String) (v : α) (k' : String) :
    (k' ∈ (pyDictInsert d k v).map Prod.fst) ↔
      k' ∈ d.map Prod.fst ∨ k' = k := by
  unfold pyDictInsert
  by_cases h : (d.map Prod.fst).contains k
  · rw [if_pos h, keys_replaceVal]
    constructor
    · exact fun hm => Or.inl hm
    · intro hm
      rcases hm with hm | hm
      · exact hm
      · subst hm
        simpa using h
  · rw [if_neg h]
    simp [List.map_append]

/-- Lookup after writing one key: the written key reads back the new
value, every other key is unaffected. -/
theorem lookup_pyDictInsert {α : Type} (d : List (String × α))
    (k : String) (v : α) (k' : String) :
    List.lookup k' (pyDictInsert d k v) =
      if k' = k then some v else List.lookup k' d := by
  unfold pyDictInsert
  by_cases h : (d.map Prod.fst).contains k
  · rw [if_pos h]
    by_cases hk : k' = k
    · subst hk
      rw [if_pos rfl]
      exact lookup_replaceVal_eq d k' v (by simpa using h)
    · rw [if_neg hk]
      exact lookup_replaceVal_ne d k v k' hk
  · rw [if_neg h]
    rw [lookup_append_single]
    by_cases hk : k' = k
    · subst hk
      have hnone : List.lookup k' d = none :=
        lookup_eq_none_of_not_mem d k' (by simpa using h)
      simp [hnone]
    · cases hl : List.lookup k' d with
      | none => simp [hk]
      | some w => simp [hk]

/-- Lookup after a whole dict.update: when the updating mapping has no
duplicate keys, its value wins wherever present, and the original value
survives elsewhere. -/
theorem lookup_pyDictUpdate {α : Type} (new : List (String × α)) :
    ∀ (d : List (String × α)), (new.map Prod.fst).Nodup → ∀ k,
    List.lookup k (pyDictUpdate d new) =
      match List.lookup k new with
      | some v => some v
      | none => List.lookup k d := by
  induction new with
  | nil =>
    intro d _ k
    simp [pyDictUpdate, List.lookup]
  | cons p t ih =>
    intro d hNew k
    have hstep : pyDictUpdate d (p :: t) =
        pyDictUpdate (pyDictInsert d p.1 p.2) t := rfl
    rw [hstep]
    have hNodup : (t.map Prod.fst).Nodup := by
      simpa [List.nodup_cons] using (List.nodup_cons.mp (by
        simpa using hNew)).2
    have hnotin : p.1 ∉ t.map Prod.fst :=
      (List.nodup_cons.mp (by simpa using hNew)).1
    rw [ih (pyDictInsert d p.1 p.2) hNodup k]
    by_cases hk : k = p.1
    · subst hk
      have hnone : List.lookup p.1 t = none :=
        lookup_eq_none_of_not_mem t p.1 hnotin
      simp [hnone, List.lookup, lookup_pyDictInsert]
    · have hne : (k == p.1) = false := by simpa using hk
      simp only [List.lookup, hne]
      cases hl : List.lookup k t with
      | none => simp [lookup_pyDictInsert, hk]
      | some w => simp

/-- Key membership after a whole dict.update: exactly the union of the
two key sets. -/
theorem mem_keys_pyDictUpdate {α : Type} (new : List (String × α)) :
    ∀ (d : List (String × α)) (k : String),
    k ∈ (pyDictUpdate d new).map Prod.fst ↔
      k ∈ d.map Prod.fst ∨ k ∈ new.map Prod.fst := by
  induction new with
  | nil =>
    intro d k
    simp [pyDictUpdate]
  | cons p t ih =>
    intro d k
    have hstep : pyDictUpdate d (p :: t) =
        pyDictUpdate (pyDictInsert d p.1 p.2) t := rfl
    rw [hstep, ih]
    rw [mem_keys_pyDictInsert]
    simp only [List.map_cons, List.mem_cons]
    tauto

/-- C10: merge_configs(old, new) returns a mapping that contains every
key of old and of new, in which the value from new wins for every key
present in both, and whose construction leaves both argument mappings
unmodified (the embedding is a pure function of its two arguments, and
the source builds a fresh dict from old before updating it, so neither
argument is written through).  Stated for argument mappings without
duplicate keys, which is what Python dicts hand merge_configs. -/
theorem merge_configs_spec (old new : List (String × String))
    (hOld : (old.map Prod.fst).Nodup) (hNew : (new.map Prod.fst).Nodup) :
    (∀ k, List.lookup k (merge_configs old new) =
      match List.lookup k new with
      | some v => some v
      | none => List.lookup k old) ∧
    (∀ k, k ∈ (merge_configs old new).map Prod.fst ↔
      k ∈ old.map Prod.fst ∨ k ∈ new.map Prod.fst) := by
  constructor
  · intro k
    unfold merge_configs
    rw [lookup_pyDictUpdate new (pyDictOf old) hNew k]
    have hOldLookup : List.lookup k (pyDictOf old) = List.lookup k old := by
      have hbase : pyDictOf old = pyDictUpdate [] old := rfl
      rw [hbase, lookup_pyDictUpdate old [] hOld k]
      cases hl : List.lookup k old with
      | none => simp [List.lookup]
      | some w => simp
    rw [hOldLookup]
    cases List.lookup k new <;> rfl
  · intro k
    unfold merge_configs
    rw [mem_keys_pyDictUpdate]
    have hbase : pyDictOf old = pyDictUpdate [] old := rfl
    rw [hbase, mem_keys_pyDictUpdate]
    simp

/-- Witness for merge_configs_spec at concrete mappings: the value for
the shared key b comes from the second argument. -/
theorem merge_configs_spec_witness :
    ((([("a", "1"), ("b", "2")] : List (String × String)).map
        Prod.fst).Nodup ∧
      (([("b", "9"), ("c", "3")] : List (String × String)).map
        Prod.fst).Nodup) ∧
    (∀ k, List.lookup k
        (merge_configs [("a", "1"), ("b", "2")] [("b", "9"), ("c", "3")]) =
      match List.lookup k [("b", "9"), ("c", "3")] with
      | some v => some v
      | none => List.lookup k [("a", "1"), ("b", "2")]) ∧
    (∀ k, k ∈ (merge_configs [("a", "1"), ("b", "2")]
        [("b", "9"), ("c", "3")]).map Prod.fst ↔
      k ∈ ([("a", "1"), ("b", "2")] : List (String × String)).map Prod.fst ∨
      k ∈ ([("b", "9"), ("c", "3")] : List (String × String)).map Prod.fst) :=
  ⟨⟨by decide, by decide⟩,
    merge_configs_spec [("a", "1"), ("b", "2")] [("b", "9"), ("c", "3")]
      (by decide) (by decide)⟩

/-!
Helpers for destructuring Except computations.
-/

/-- Destructures a successful bind into its successful head and
continuation. -/
theorem bind_ok_destruct {α β : Type} {e : Except PyErr α}
    {f : α → Except PyErr β} {b : β} (h : e >>= f = Except.ok b) :
    ∃ a, e = Except.ok a ∧ f a = Except.ok b := by
  cases e with
  | error err => simp [Bind.bind, Except.bind] at h
  | ok a =>
    refine ⟨a, rfl, ?_⟩
    simpa [Bind.bind, Except.bind] using h

/-- Reads back the option behind a successful orKeyError. -/
theorem orKeyError_ok {α : Type} {o : Option α} {a : α}
    (h : orKeyError o = Except.ok a) : o = some a := by
  cases o with
  | none => simp [orKeyError] at h
  | some b => simpa [orKeyError] using h

/-- Reads back the option behind a successful orTypeError. -/
theorem orTypeError_ok {α : Type} {o : Option α} {a : α}
    (h : orTypeError o = Except.ok a) : o = some a := by
  cases o with
  | none => simp [orTypeError] at h
  | some b => simpa [orTypeError] using h

/-- Reads back the option behind a successful orIndexError. -/
theorem orIndexError_ok {α : Type} {o : Option α} {a : α}
    (h : orIndexError o = Except.ok a) : o = some a := by
  cases o with
  | none => simp [orIndexError] at h
  | some b => simpa [orIndexError] using h

/-- Concatenation of the method listing lines that renderMethodList
produces when desc_funcs is off. -/
def concatFills : List String → String
  | [] => ""
  | i :: rest => attrib_wrap.fill i ++ "\n" ++ concatFills rest

/-- With desc_funcs off, a successful method listing is exactly the
wrapped method names, one per line, in the given order. -/
theorem renderMethodList_false_ok (funcs : List (String × FuncDict)) :
    ∀ (names : List String) (s : String),
    renderMethodList funcs false names = Except.ok s → s = concatFills names := by
  intro names
  induction names with
  | nil =>
    intro s h
    simp only [renderMethodList] at h
    cases h
    rfl
  | cons i rest ih =>
    intro s h
    simp only [renderMethodList] at h
    obtain ⟨e, he, h2⟩ := bind_ok_destruct h
    obtain ⟨tail, htail, h3⟩ := bind_ok_destruct h2
    simp only [or_true, if_true] at h3
    cases h3
    rw [ih tail htail]
    rfl

/-- C2: for every class dictionary whose deduplicated method-name list
sorts to bar, foo, ~Cls the renderer lists the methods in the order
bar, ~Cls, foo; and in general, after sorting the deduplicated method
names, the element that sorted last is removed from the end and
re-inserted at index 1 before the Methods section is emitted. -/
theorem class_method_order_spec (class_dict : ClassDict) :
    (sortedMethodSet class_dict.members_methods = ["bar", "foo", "~Cls"] →
      methodOrder0 (pySetList class_dict.members_methods) =
        some ["bar", "~Cls", "foo"] ∧
      ∀ s, class_docstr class_dict false = Except.ok s →
        ∃ pre post, s = pre ++ "Methods\n-------\nbar\n~Cls\nfoo\n" ++ post) ∧
    (∀ l, sortedMethodSet class_dict.members_methods = l → l ≠ [] →
      ∃ x, l.getLast? = some x ∧
        methodOrder0 (pySetList class_dict.members_methods) =
          some (pyInsertAt 1 x l.dropLast)) := by
  have hgen : ∀ l, sortedMethodSet class_dict.members_methods = l → l ≠ [] →
      ∃ x, l.getLast? = some x ∧
        methodOrder0 (pySetList class_dict.members_methods) =
          some (pyInsertAt 1 x l.dropLast) := by
    intro l hl hne
    have hs2 : (l.getLast?).isSome := List.getLast?_isSome.mpr hne
    obtain ⟨x, hx⟩ := Option.isSome_iff_exists.mp hs2
    refine ⟨x, hx, ?_⟩
    unfold sortedMethodSet at hl
    unfold methodOrder0
    rw [hl]
    show (match l.getLast? with
      | none => none
      | some y => some (pyInsertAt 1 y l.dropLast)) =
      some (pyInsertAt 1 x l.dropLast)
    rw [hx]
  constructor
  · intro h
    have hmo : methodOrder0 (pySetList class_dict.members_methods) =
        some ["bar", "~Cls", "foo"] := by
      unfold sortedMethodSet at h
      unfold methodOrder0
      rw [h]
      rfl
    refine ⟨hmo, ?_⟩
    intro s hs
    unfold class_docstr at hs
    obtain ⟨pubfun, h1, hs⟩ := bind_ok_destruct hs
    obtain ⟨clsEntry, h2, hs⟩ := bind_ok_destruct hs
    obtain ⟨cls_msg, h3, hs⟩ := bind_ok_destruct hs
    obtain ⟨attrs, h4, hs⟩ := bind_ok_destruct hs
    obtain ⟨mo, h5, hs⟩ := bind_ok_destruct hs
    obtain ⟨mets, h6, hs⟩ := bind_ok_destruct hs
    have hmo2 : mo = ["bar", "~Cls", "foo"] := by
      have := orIndexError_ok h5
      rw [hmo] at this
      exact (Option.some_inj.mp this).symm
    subst hmo2
    have hmets : mets = "bar\n~Cls\nfoo\n" := by
      have := renderMethodList_false_ok (funcsOf class_dict)
        ["bar", "~Cls", "foo"] mets h6
      rw [this]
      decide
    subst hmets
    cases hs
    refine ⟨wrap_68.fill cls_msg ++ "\n\n" ++ attrsHeader ++ attrs ++ "\n\n",
      "\n" ++ notesSection class_dict, ?_⟩
    have hlit : ∀ r : String,
        methodsHeader ++ ("bar\n~Cls\nfoo\n" ++ r) =
          "Methods\n-------\nbar\n~Cls\nfoo\n" ++ r := by
      intro r
      rw [← String.append_assoc]
      congr 1
    simp only [String.append_assoc]
    rw [hlit]
  · exact hgen

/-- Member dictionary used by the concrete class of the ordering
witness. -/
def c2Member : FuncDict :=
  { emptyFuncDict with
    briefdescription := ""
    detaileddescription := some "A class." }

/-- Concrete parsed class with methods foo, ~Cls, bar, for the ordering
witness. -/
def c2Class : ClassDict :=
  { sections := [("public-func",
      [("Cls", c2Member), ("bar", c2Member), ("foo", c2Member),
        ("~Cls", c2Member)])]
    kls_name := "ns::Cls"
    members_methods := ["foo", "~Cls", "bar"]
    members_variables := []
    file_name := "cls.h"
    ns := "ns" }

/-- Witness for class_method_order_spec: the class with methods foo,
~Cls, bar sorts to bar, foo, ~Cls and renders its Methods section in
the order bar, ~Cls, foo. -/
theorem class_method_order_spec_witness :
    sortedMethodSet c2Class.members_methods = ["bar", "foo", "~Cls"] ∧
    methodOrder0 (pySetList c2Class.members_methods) =
      some ["bar", "~Cls", "foo"] ∧
    (∃ pre post,
      "A class.\n\nAttributes\n----------\n\n\nMethods\n-------\nbar\n~Cls\nfoo\n\nNotes\n-----\nThis class was defined in cls.h\n\nThe class is found in the \"ns\" namespace"
        = pre ++ "Methods\n-------\nbar\n~Cls\nfoo\n" ++ post) ∧
    (∃ x, (["bar", "foo", "~Cls"] : List String).getLast? = some x ∧
      methodOrder0 (pySetList c2Class.members_methods) =
        some (pyInsertAt 1 x
          (["bar", "foo", "~Cls"] : List String).dropLast)) := by
  have h : sortedMethodSet c2Class.members_methods =
      ["bar", "foo", "~Cls"] := by decide
  have main := class_method_order_spec c2Class
  refine ⟨h, (main.1 h).1, ?_, main.2 ["bar", "foo", "~Cls"] h (by decide)⟩
  exact (main.1 h).2 _ (by rfl)

/-- Every entry of a one-key write is an old entry or the written
pair. -/
theorem mem_pyDictInsert_elim {α : Type} {d : List (String × α)} {k : String}
    {v : α} {p : String × α} (h : p ∈ pyDictInsert d k v) :
    p ∈ d ∨ p = (k, v) := by
  unfold pyDictInsert at h
  by_cases hc : (d.map Prod.fst).contains k
  · rw [if_pos hc] at h
    obtain ⟨q, hq, he⟩ := List.mem_map.mp h
    by_cases hqk : q.1 = k
    · right
      rw [← he]
      simp [hqk]
    · left
      rw [← he]
      simpa [hqk] using hq
  · rw [if_neg hc] at h
    rcases List.mem_append.mp h with h1 | h1
    · exact Or.inl h1
    · right
      simpa using h1

/-- With no argument-description dict, the argument loop of _parse_func
succeeds and stores no desc field anywhere. -/
theorem argsFoldNone (params : List ParamDecl) :
    ∀ (acc : List (String × ArgEntry)), (∀ p ∈ acc, p.2.desc = none) →
    ∃ l, params.foldlM (parseArgStep none) acc = Except.ok l ∧
      ∀ p ∈ l, p.2.desc = none := by
  induction params with
  | nil =>
    intro acc h
    exact ⟨acc, rfl, h⟩
  | cons q qs ih =>
    intro acc h
    have hacc : ∀ p ∈ pyDictInsert acc q.declname
        ({ type := q.type, desc := none } : ArgEntry), p.2.desc = none := by
      intro p hp
      rcases mem_pyDictInsert_elim hp with h1 | h1
      · exact h p h1
      · rw [h1]
    obtain ⟨l, hl, hd⟩ := ih _ hacc
    refine ⟨l, ?_, hd⟩
    rw [List.foldlM_cons]
    have hstep : parseArgStep none acc q =
        Except.ok (pyDictInsert acc q.declname
          { type := q.type, desc := none }) := rfl
    rw [hstep]
    simpa [Bind.bind, Except.bind] using hl

/-- C5: a one-paragraph detailed description parses with no
per-parameter description anywhere in the args mapping (the desc key is
absent from every entry), and any paragraph count other than one and
two parses to an empty detailed description, likewise with no
per-parameter descriptions. -/
theorem parse_func_paragraph_shapes (x : MemberXml) :
    (x.dd_paras.length = 1 →
      ∃ d, _parse_func x = Except.ok d ∧
        ∀ p ∈ d.args.getD [], p.2.desc = none) ∧
    (x.dd_paras.length ≠ 1 → x.dd_paras.length ≠ 2 →
      ∃ d, _parse_func x = Except.ok d ∧
        d.detaileddescription = some "" ∧
        ∀ p ∈ d.args.getD [], p.2.desc = none) := by
  obtain ⟨l, hl, hdesc⟩ := argsFoldNone x.params []
    (by intro p hp; simp at hp)
  constructor
  · intro h1
    obtain ⟨p0, t, hd⟩ : ∃ p0 t, x.dd_paras = p0 :: t := by
      cases hc : x.dd_paras with
      | nil =>
        rw [hc] at h1
        simp at h1
      | cons p0 t => exact ⟨p0, t, rfl⟩
    unfold _parse_func
    rw [if_pos h1, hd]
    simp only [List.head?_cons, orIndexError, Bind.bind, Except.bind]
    rw [hl]
    refine ⟨_, rfl, ?_⟩
    intro p hp
    by_cases h0 : l.length = 0
    · simp [h0] at hp
    · simp only [h0, if_neg, Option.getD_some] at hp
      · exact hdesc p hp
  · intro h1 h2
    unfold _parse_func
    rw [if_neg h1, if_neg h2]
    simp only [Bind.bind, Except.bind]
    rw [hl]
    refine ⟨_, rfl, rfl, ?_⟩
    intro p hp
    by_cases h0 : l.length = 0
    · simp [h0] at hp
    · simp only [h0, if_neg, Option.getD_some] at hp
      · exact hdesc p hp

/-- Function fragment with a one-paragraph detailed description. -/
def c5OnePara : MemberXml :=
  { id := "m1"
    kind := "function"
    name := "f"
    dd_paras := [{ text := some "Detail.", plist := none }]
    type := some "int"
    params := [{ declname := "x", type := some "int" }]
    argsstring := some "(int x)"
    brief_para := some (some "Brief.")
    definition := some "int f" }

/-- Function fragment with a three-paragraph detailed description. -/
def c5ThreePara : MemberXml :=
  { c5OnePara with
    dd_paras :=
      [{ text := some "One.", plist := none },
        { text := some "Two.", plist := none },
        { text := some "Three.", plist := none }] }

/-- Witness for parse_func_paragraph_shapes at a one-paragraph and a
three-paragraph fragment. -/
theorem parse_func_paragraph_shapes_witness :
    (∃ d, _parse_func c5OnePara = Except.ok d ∧
      ∀ p ∈ d.args.getD [], p.2.desc = none) ∧
    (∃ d, _parse_func c5ThreePara = Except.ok d ∧
      d.detaileddescription = some "" ∧
      ∀ p ∈ d.args.getD [], p.2.desc = none) :=
  ⟨(parse_func_paragraph_shapes c5OnePara).1 (by decide),
    (parse_func_paragraph_shapes c5ThreePara).2 (by decide) (by decide)⟩


/-- C6: a function dictionary with a None args field renders its
Parameters section with exactly the literal line None as the body, and
one with a None return type renders its Returns section with exactly
the literal None as the body. -/
theorem func_docstr_none_sections (func_dict : FuncDict) (is_method : Bool)
    (dd : String) (hdd : func_dict.detaileddescription = some dd) :
    (func_dict.args = none →
      func_docstr func_dict is_method =
        (renderRetsAll (if is_method then wrap_64 else wrap_68)
            (retsOf func_dict)).map
          (fun rPart =>
            (if is_method then wrap_64 else wrap_68).fill
              (pyStrip (String.intercalate "\n\n"
                [func_dict.briefdescription, dd]))
            ++ "\n\n" ++ "Parameters\n----------\n" ++ "None\n\n"
            ++ "Returns\n-------\n" ++ rPart)) ∧
    (func_dict.ret_type = none →
      func_docstr func_dict is_method =
        (renderParamsAll (if is_method then wrap_64 else wrap_68)
            (paramsOf func_dict)).map
          (fun pPart =>
            (if is_method then wrap_64 else wrap_68).fill
              (pyStrip (String.intercalate "\n\n"
                [func_dict.briefdescription, dd]))
            ++ "\n\n" ++ "Parameters\n----------\n" ++ pPart
            ++ "Returns\n-------\n" ++ "None\n\n")) := by
  cases is_method with
  | false =>
    constructor
    · intro hargs
      have hp : paramsOf func_dict = ["None"] := by
        unfold paramsOf
        rw [hargs]
      have hrp : renderParamsAll wrap_68 ["None"] = Except.ok "None\n\n" := by
        rfl
      unfold func_docstr
      simp only [hdd, hp, orTypeError, Bind.bind, Except.bind,
        Bool.false_eq_true, if_false, hrp]
      cases hr : renderRetsAll wrap_68 (retsOf func_dict) with
      | error e => rfl
      | ok r =>
        simp only [Except.map]
        have h1 : paramsHeader wrap_68 = "Parameters\n----------\n" := by
          decide
        have h2 : returnsHeader wrap_68 = "Returns\n-------\n" := by decide
        rw [h1, h2]
    · intro hret
      have hp : retsOf func_dict = ["None"] := by
        unfold retsOf
        rw [hret]
      have hrr : renderRetsAll wrap_68 ["None"] = Except.ok "None\n\n" := by
        rfl
      unfold func_docstr
      simp only [hdd, hp, orTypeError, Bind.bind, Except.bind,
        Bool.false_eq_true, if_false, hrr]
      cases hr : renderParamsAll wrap_68 (paramsOf func_dict) with
      | error e => rfl
      | ok r =>
        simp only [Except.map]
        have h1 : paramsHeader wrap_68 = "Parameters\n----------\n" := by
          decide
        have h2 : returnsHeader wrap_68 = "Returns\n-------\n" := by decide
        rw [h1, h2]
  | true =>
    constructor
    · intro hargs
      have hp : paramsOf func_dict = ["None"] := by
        unfold paramsOf
        rw [hargs]
      have hrp : renderParamsAll wrap_64 ["None"] = Except.ok "None\n\n" := by
        rfl
      unfold func_docstr
      simp only [hdd, hp, orTypeError, Bind.bind, Except.bind, if_true,
        hrp]
      cases hr : renderRetsAll wrap_64 (retsOf func_dict) with
      | error e => rfl
      | ok r =>
        simp only [Except.map]
        have h1 : paramsHeader wrap_64 = "Parameters\n----------\n" := by
          decide
        have h2 : returnsHeader wrap_64 = "Returns\n-------\n" := by decide
        rw [h1, h2]
    · intro hret
      have hp : retsOf func_dict = ["None"] := by
        unfold retsOf
        rw [hret]
      have hrr : renderRetsAll wrap_64 ["None"] = Except.ok "None\n\n" := by
        rfl
      unfold func_docstr
      simp only [hdd, hp, orTypeError, Bind.bind, Except.bind, if_true,
        hrr]
      cases hr : renderParamsAll wrap_64 (paramsOf func_dict) with
      | error e => rfl
      | ok r =>
        simp only [Except.map]
        have h1 : paramsHeader wrap_64 = "Parameters\n----------\n" := by
          decide
        have h2 : returnsHeader wrap_64 = "Returns\n-------\n" := by decide
        rw [h1, h2]

/-- Function dictionary with no parameters and no return values. -/
def c6Dict : FuncDict :=
  { emptyFuncDict with
    briefdescription := "Brief."
    detaileddescription := some "Detail." }

/-- Witness for func_docstr_none_sections at a concrete dictionary with
neither parameters nor return values: both section bodies are the
literal None. -/
theorem func_docstr_none_sections_witness :
    (func_docstr c6Dict false =
      (renderRetsAll wrap_68 (retsOf c6Dict)).map
        (fun rPart =>
          wrap_68.fill (pyStrip (String.intercalate "\n\n"
            [c6Dict.briefdescription, "Detail."]))
          ++ "\n\n" ++ "Parameters\n----------\n" ++ "None\n\n"
          ++ "Returns\n-------\n" ++ rPart)) ∧
    (func_docstr c6Dict false =
      (renderParamsAll wrap_68 (paramsOf c6Dict)).map
        (fun pPart =>
          wrap_68.fill (pyStrip (String.intercalate "\n\n"
            [c6Dict.briefdescription, "Detail."]))
          ++ "\n\n" ++ "Parameters\n----------\n" ++ pPart
          ++ "Returns\n-------\n" ++ "None\n\n")) ∧
    func_docstr c6Dict false = Except.ok
      "Brief. Detail.\n\nParameters\n----------\nNone\n\nReturns\n-------\nNone\n\n" := by
  have main := func_docstr_none_sections c6Dict false "Detail." rfl
  exact ⟨main.1 rfl, main.2 rfl, by rfl⟩

/-- C8: a class symbol from the host manifest with no entry in the
class name-index raises nothing, adds no docstrings entry to the
registry and leaves processing of the remaining symbols exactly as it
would have been: the loop state after the symbol equals the state
before it. -/
theorem missing_class_symbol_skipped (class_files : List (String × ClassXml))
    (classes : List (String × KlsIdx)) (build_dir : String) (c : ApiName)
    (rest : List ApiName) (env : Env)
    (h : List.lookup c.name classes = none) :
    processClassSym class_files classes build_dir c env = Except.ok env ∧
    processClasses class_files classes build_dir (c :: rest) env =
      processClasses class_files classes build_dir rest env := by
  have h1 : processClassSym class_files classes build_dir c env =
      Except.ok env := by
    unfold processClassSym
    rw [h]
  refine ⟨h1, ?_⟩
  show (do
    let env1 ← processClassSym class_files classes build_dir c env
    processClasses class_files classes build_dir rest env1) =
    processClasses class_files classes build_dir rest env
  rw [h1]
  rfl

/-- Empty registry entry used by the execute-stage witnesses. -/
def emptyEnvEntry : EnvEntry :=
  { methods := [], docstrings := none, docstring := none }

/-- Registry with one module and one class symbol, for the skip
witness. -/
def c8Env : Env :=
  [("mod", [("Missing", emptyEnvEntry)])]

/-- Class index that does not know the symbol Missing. -/
def c8Classes : List (String × KlsIdx) :=
  [("Other",
    { file_name := "classOther"
      ns := ""
      vars := []
      methods := [] })]

/-- Witness for missing_class_symbol_skipped: the symbol Missing is
absent from the index, the registry is returned untouched and the loop
continues with the remaining symbols. -/
theorem missing_class_symbol_skipped_witness :
    processClassSym [] c8Classes "build"
      { name := "Missing", srcfile := "m.h", tarname := "mod" } c8Env =
      Except.ok c8Env ∧
    processClasses [] c8Classes "build"
      [{ name := "Missing", srcfile := "m.h", tarname := "mod" }] c8Env =
      processClasses [] c8Classes "build" [] c8Env :=
  missing_class_symbol_skipped [] c8Classes "build"
    { name := "Missing", srcfile := "m.h", tarname := "mod" } [] c8Env
    (by decide)

/-- C7: for a requested method name, the registry updater collects
every entry of every function-like section whose stored name starts
with the requested name; zero matches are skipped with nothing stored,
exactly one match stores its single rendering, and several matches
store the overload notice followed by the individual renderings joined
by a banner line of hash characters. -/
theorem method_match_dispatch (parsed : ClassDict) (m : String) :
    (∀ d, d ∈ methodMatches parsed m ↔
      ∃ sec ∈ parsed.sections, pyIn "func" sec.1 = true ∧
        ∃ name, (name, d) ∈ sec.2 ∧ pyStartsWith name m = true) ∧
    (methodMatches parsed m = [] → methodAction parsed m = Except.ok none) ∧
    (∀ d, methodMatches parsed m = [d] →
      methodAction parsed m = (func_docstr d true).map some) ∧
    (1 < (methodMatches parsed m).length →
      methodAction parsed m =
        ((methodMatches parsed m).mapM (fun d => func_docstr d true)).map
          (fun ds_list =>
            some (wrap_64.fill (_overload_msg "method") ++ "\n\n"
              ++ String.intercalate (methodBanner ++ "\n\n") ds_list))) := by
  refine ⟨?_, ?_, ?_, ?_⟩
  · intro d
    unfold methodMatches
    simp only [List.mem_flatten, List.mem_map, List.mem_filter]
    constructor
    · rintro ⟨l, ⟨sec, ⟨hsec, hfunc⟩, rfl⟩, hd⟩
      obtain ⟨⟨name, d2⟩, hmem, he⟩ := List.mem_map.mp hd
      obtain ⟨hm2, hsw⟩ := List.mem_filter.mp hmem
      have hd2 : d2 = d := he
      subst hd2
      exact ⟨sec, hsec, hfunc, name, hm2, hsw⟩
    · rintro ⟨sec, hsec, hfunc, name, hmem, hsw⟩
      refine ⟨(sec.2.filter (fun p => pyStartsWith p.1 m)).map Prod.snd,
        ⟨sec, ⟨hsec, hfunc⟩, rfl⟩, ?_⟩
      exact List.mem_map.mpr ⟨(name, d),
        List.mem_filter.mpr ⟨hmem, hsw⟩, rfl⟩
  · intro h
    unfold methodAction
    rw [h]
    rfl
  · intro d h
    unfold methodAction
    rw [h]
    simp only [List.length_singleton, if_true, List.head?_cons, orIndexError,
      Bind.bind, Except.bind]
    cases hf : func_docstr d true with
    | error e => rfl
    | ok s => rfl
  · intro h
    have h1 : ¬ (methodMatches parsed m).length = 1 := by omega
    unfold methodAction
    rw [if_neg h1, if_pos h]
    cases hm : (methodMatches parsed m).mapM (fun d => func_docstr d true) with
    | error e => simp [Bind.bind, Except.bind, hm, Except.map]
    | ok l => simp [Bind.bind, Except.bind, hm, Except.map]

/-- Member dictionary of the overload-matching witness. -/
def c7Member : FuncDict :=
  { emptyFuncDict with
    briefdescription := "A foo."
    detaileddescription := some "Detail." }

/-- Parsed class carrying entries Foo and Foo1 (an overload pair) plus
an unrelated method. -/
def c7Class : ClassDict :=
  { sections := [("public-func",
      [("Foo", c7Member), ("Foo1", c7Member), ("other", c7Member)])]
    kls_name := "ns::Cls"
    members_methods := ["Foo", "other"]
    members_variables := []
    file_name := "cls.h"
    ns := "ns" }

set_option maxRecDepth 4000 in
/-- Witness for method_match_dispatch: requesting Foo matches both Foo
and Foo1 and stores the overload notice with both renderings separated
by the hash banner; requesting Bar matches nothing and stores nothing;
requesting other stores its single rendering. -/
theorem method_match_dispatch_witness :
    methodMatches c7Class "Foo" = [c7Member, c7Member] ∧
    methodAction c7Class "Foo" =
      ((methodMatches c7Class "Foo").mapM (fun d => func_docstr d true)).map
        (fun ds_list =>
          some (wrap_64.fill (_overload_msg "method") ++ "\n\n"
            ++ String.intercalate (methodBanner ++ "\n\n") ds_list)) ∧
    methodAction c7Class "Foo" = Except.ok (some
      ("This method was overloaded in the C-based source. To overcome\nthis we ill put the relevant docstring for each version below.\nEach version will begin with a line of # characters.\n\nA foo. Detail.\n\nParameters\n----------\nNone\n\nReturns\n-------\nNone\n\n"
        ++ methodBanner ++
        "\n\nA foo. Detail.\n\nParameters\n----------\nNone\n\nReturns\n-------\nNone\n\n")) ∧
    methodAction c7Class "Bar" = Except.ok none ∧
    methodAction c7Class "other" = (func_docstr c7Member true).map some := by
  have main := method_match_dispatch c7Class "Foo"
  refine ⟨by decide, main.2.2.2 (by decide), by rfl,
    (method_match_dispatch c7Class "Bar").2.1 (by decide),
    (method_match_dispatch c7Class "other").2.2.1 c7Member (by decide)⟩

/-- Manifest triple of the free-function witness. -/
def c1Api : ApiName :=
  { name := "myfunc", srcfile := "src.h", tarname := "mymod" }

/-- Registry holding the module and symbol of the free-function
witness. -/
def c1Env : Env := [("mymod", [("myfunc", emptyEnvEntry)])]

/-- Free-function index that does contain the symbol name. -/
def c1Funcs : List (String × FuncIdxEntry) :=
  [("myfunc", { file_name := "namespacens.xml", refid := "r1", ns := "ns" })]

/-- C1: the free-function branch of execute does not implement the
skip-on-zero-matches behaviour the claim describes.  With a nonempty
index the loop raises TypeError on its first membership test, because
the source evaluates the Python expression f in x with f the whole
manifest triple rather than the function name; and with zero matches
the loop still writes a docstring entry (the overload banner alone),
because filter returns a list, never None, so the diagnostic skip
branch is unreachable.  Both runs contradict the claimed
zero-or-one-or-many dispatch on name-substring matches. -/
theorem free_function_loop_bug :
    processFunctions [] c1Funcs [c1Api] c1Env =
      Except.error PyErr.typeError ∧
    processFunctions [] [] [c1Api] c1Env = Except.ok
      [("mymod", [("myfunc",
        { methods := []
          docstrings := none
          docstring := some
            "This function was overloaded in the C-based source. To overcome this\nwe ill put the relevant docstring for each version below. Each\nversion will begin with a line of # characters.\n\n" })])] ∧
    processFunctions [] [] [c1Api] c1Env ≠ Except.ok c1Env := by
  refine ⟨by rfl, by rfl, ?_⟩
  intro h
  rw [show processFunctions [] [] [c1Api] c1Env = Except.ok
      [("mymod", [("myfunc",
        { methods := []
          docstrings := none
          docstring := some
            "This function was overloaded in the C-based source. To overcome this\nwe ill put the relevant docstring for each version below. Each\nversion will begin with a line of # characters.\n\n" })])] from rfl] at h
  cases h

/-- Membership through one insertion step of the sort model. -/
theorem mem_insertSorted (x a : String) (l : List String) :
    a ∈ insertSorted x l ↔ a = x ∨ a ∈ l := by
  induction l with
  | nil => simp [insertSorted]
  | cons y ys ih =>
    unfold insertSorted
    by_cases h : pyLe x y
    · simp [h]
    · have hb : pyLe x y = false := by simpa using h
      simp only [hb, Bool.false_eq_true, if_false, List.mem_cons, ih]
      tauto

/-- Sorting preserves membership. -/
theorem mem_pySort (a : String) (l : List String) :
    a ∈ pySort l ↔ a ∈ l := by
  induction l with
  | nil => simp [pySort]
  | cons y ys ih =>
    unfold pySort at ih ⊢
    simp only [List.foldr_cons, mem_insertSorted, List.mem_cons, ih]

/-- Deduplication preserves membership. -/
theorem mem_pySetList (a : String) (l : List String) :
    a ∈ pySetList l ↔ a ∈ l := by
  induction l with
  | nil => simp [pySetList]
  | cons y ys ih =>
    unfold pySetList
    by_cases h : y ∈ ys
    · simp only [h, if_true, ih, List.mem_cons]
      constructor
      · exact fun hm => Or.inr hm
      · intro hm
        rcases hm with hm | hm
        · subst hm
          exact h
        · exact hm
    · simp [h, ih]

/-- A list with a member deduplicates to a nonempty list. -/
theorem pySetList_ne_nil (a : String) (l : List String) (h : a ∈ l) :
    pySetList l ≠ [] := by
  intro hnil
  have := (mem_pySetList a l).mpr h
  rw [hnil] at this
  simp at this

/-- Insertion never produces the empty list. -/
theorem insertSorted_ne_nil (x : String) (l : List String) :
    insertSorted x l ≠ [] := by
  cases l with
  | nil => simp [insertSorted]
  | cons y ys =>
    unfold insertSorted
    by_cases h : pyLe x y <;> simp [h]

/-- Sorting a nonempty list yields a nonempty list. -/
theorem pySort_ne_nil (l : List String) (h : l ≠ []) : pySort l ≠ [] := by
  cases l with
  | nil => exact absurd rfl h
  | cons y ys =>
    unfold pySort
    simp only [List.foldr_cons]
    exact insertSorted_ne_nil y _

/-- Membership in a clamped list insertion. -/
theorem mem_pyInsertAt (a x : String) (n : Nat) (l : List String) :
    a ∈ pyInsertAt n x l ↔ a = x ∨ a ∈ l := by
  unfold pyInsertAt
  constructor
  · intro h
    rcases List.mem_append.mp h with h1 | h1
    · rcases List.mem_append.mp h1 with h2 | h2
      · exact Or.inr (List.mem_of_mem_take h2)
      · simp at h2
        exact Or.inl h2
    · exact Or.inr (List.mem_of_mem_drop h1)
  · intro h
    rcases h with h | h
    · subst h
      exact List.mem_append.mpr (Or.inl (List.mem_append.mpr (Or.inr (by simp))))
    · rcases List.mem_append.mp (show a ∈ l.take n ++ l.drop n by
        rw [List.take_append_drop n l]
        exact h) with h1 | h1
      · exact List.mem_append.mpr (Or.inl (List.mem_append.mpr (Or.inl h1)))
      · exact List.mem_append.mpr (Or.inr h1)

/-- A variable name with no entry in the flattened attribute sections
makes the Attributes listing raise. -/
theorem renderAttrs_missing (ivars : List (String × FuncDict)) :
    ∀ (vars : List String) (x : String), x ∈ vars →
    List.lookup x ivars = none →
    ∃ e, renderAttrs ivars vars = Except.error e := by
  intro vars
  induction vars with
  | nil =>
    intro x hx
    simp at hx
  | cons v rest ih =>
    intro x hx hlook
    unfold renderAttrs
    cases hv : List.lookup v ivars with
    | none => exact ⟨PyErr.keyError, rfl⟩
    | some entry =>
      cases hdd : entry.detaileddescription with
      | none =>
        exact ⟨PyErr.typeError, by
          simp [orKeyError, hv, hdd, orTypeError, Bind.bind, Except.bind]⟩
      | some dd =>
        have hx2 : x ∈ rest := by
          rcases List.mem_cons.mp hx with h1 | h1
          · subst h1
            rw [hlook] at hv
            cases hv
          · exact h1
        obtain ⟨e, he⟩ := ih x hx2 hlook
        refine ⟨e, ?_⟩
        simp [orKeyError, hv, hdd, orTypeError, Bind.bind, Except.bind, he]

/-- A method name with no entry in the flattened function sections
makes the Methods listing raise. -/
theorem renderMethodList_missing (funcs : List (String × FuncDict))
    (desc_funcs : Bool) :
    ∀ (names : List String) (x : String), x ∈ names →
    List.lookup x funcs = none →
    ∃ e, renderMethodList funcs desc_funcs names = Except.error e := by
  intro names
  induction names with
  | nil =>
    intro x hx
    simp at hx
  | cons v rest ih =>
    intro x hx hlook
    unfold renderMethodList
    cases hv : List.lookup v funcs with
    | none => exact ⟨PyErr.keyError, rfl⟩
    | some entry =>
      have hx2 : x ∈ rest := by
        rcases List.mem_cons.mp hx with h1 | h1
        · subst h1
          rw [hlook] at hv
          cases hv
        · exact h1
      obtain ⟨e, he⟩ := ih x hx2 hlook
      refine ⟨e, ?_⟩
      simp [orKeyError, hv, Bind.bind, Except.bind, he]

/-- C3 as amended: a members name (variable or method) with no entry in
the corresponding section sub-mappings makes class_docstr raise an
exception rather than degrade; the degradation to an empty description
lives in the parser, which turns a missing description paragraph into
an empty string so that the renderer later sees an (empty) entry. -/
theorem class_docstr_missing_member_raises (class_dict : ClassDict) :
    ((∃ x, x ∈ class_dict.members_variables ∧
        List.lookup x (ivarsOf class_dict) = none) ∨
      (∃ x, x ∈ class_dict.members_methods ∧
        List.lookup x (funcsOf class_dict) = none) →
      ∃ e, class_docstr class_dict false = Except.error e) ∧
    (∀ v_xml : MemberXml, v_xml.dd_paras = [] →
      (_parse_variable v_xml).detaileddescription = some "") := by
  constructor
  · intro h
    unfold class_docstr
    cases h1 : List.lookup "public-func" class_dict.sections with
    | none => exact ⟨PyErr.keyError, rfl⟩
    | some pubfun =>
      cases h2 : List.lookup
          ((pySplitOn "::" class_dict.kls_name).getLast?.getD "") pubfun with
      | none =>
        exact ⟨PyErr.keyError, by
          simp [orKeyError, h1, h2, Bind.bind, Except.bind]⟩
      | some clsEntry =>
        cases h3 : clsEntry.detaileddescription with
        | none =>
          exact ⟨PyErr.typeError, by
            simp [orKeyError, h1, h2, h3, orTypeError, Bind.bind,
              Except.bind]⟩
        | some cls_msg =>
          rcases h with ⟨x, hx, hlook⟩ | ⟨x, hx, hlook⟩
          · obtain ⟨e, he⟩ := renderAttrs_missing (ivarsOf class_dict)
              class_dict.members_variables x hx hlook
            exact ⟨e, by
              simp [orKeyError, h1, h2, h3, orTypeError, Bind.bind,
                Except.bind, he]⟩
          · cases ha : renderAttrs (ivarsOf class_dict)
                class_dict.members_variables with
            | error e =>
              exact ⟨e, by
                simp [orKeyError, h1, h2, h3, orTypeError, Bind.bind,
                  Except.bind, ha]⟩
            | ok attrs =>
              have hne : pySetList class_dict.members_methods ≠ [] :=
                pySetList_ne_nil x _ hx
              have hne2 : pySort (pySetList class_dict.members_methods) ≠ [] :=
                pySort_ne_nil _ hne
              have hlast : (pySort (pySetList
                  class_dict.members_methods)).getLast? =
                  some ((pySort (pySetList
                    class_dict.members_methods)).getLast hne2) :=
                List.getLast?_eq_getLast _ hne2
              have hmo : methodOrder0 (pySetList class_dict.members_methods) =
                  some (pyInsertAt 1
                    ((pySort (pySetList class_dict.members_methods)).getLast
                      hne2)
                    (pySort (pySetList class_dict.members_methods)).dropLast)
                  := by
                unfold methodOrder0
                show (match (pySort (pySetList
                    class_dict.members_methods)).getLast? with
                  | none => none
                  | some y => some (pyInsertAt 1 y (pySort (pySetList
                      class_dict.members_methods)).dropLast)) = _
                rw [hlast]
              have hxmo : x ∈ pyInsertAt 1
                  ((pySort (pySetList class_dict.members_methods)).getLast
                    hne2)
                  (pySort (pySetList class_dict.members_methods)).dropLast := by
                have hxl : x ∈ pySort (pySetList class_dict.members_methods) :=
                  (mem_pySort x _).mpr ((mem_pySetList x _).mpr hx)
                have hsplit : x ∈ (pySort (pySetList
                    class_dict.members_methods)).dropLast ++
                    [(pySort (pySetList class_dict.members_methods)).getLast
                      hne2] := by
                  rw [List.dropLast_append_getLast hne2]
                  exact hxl
                rcases List.mem_append.mp hsplit with h4 | h4
                · exact (mem_pyInsertAt x _ 1 _).mpr (Or.inr h4)
                · simp at h4
                  exact (mem_pyInsertAt x _ 1 _).mpr (Or.inl h4)
              obtain ⟨e, he⟩ := renderMethodList_missing
                (funcsOf class_dict) false _ x hxmo hlook
              exact ⟨e, by
                simp [orKeyError, h1, h2, h3, orTypeError, Bind.bind,
                  Except.bind, ha, hmo, orIndexError, he]⟩
  · intro v_xml h
    unfold _parse_variable
    rw [h]
    rfl

/-- Parsed class whose members list a variable x that no section
sub-mapping contains. -/
def c3Class : ClassDict :=
  { sections := [("public-func", [("Cls", c2Member)])]
    kls_name := "ns::Cls"
    members_methods := ["Cls"]
    members_variables := ["x"]
    file_name := "cls.h"
    ns := "ns" }

/-- Counterexample to C3: the class lists the variable x among its
members, no section sub-mapping has an entry for x, and the renderer
does fail (KeyError) instead of degrading to an empty description. -/
theorem class_docstr_missing_member_counterexample :
    "x" ∈ c3Class.members_variables ∧
    List.lookup "x" (ivarsOf c3Class) = none ∧
    (∀ sec ∈ c3Class.sections, List.lookup "x" sec.2 = none) ∧
    class_docstr c3Class false = Except.error PyErr.keyError ∧
    ¬ ∃ s, class_docstr c3Class false = Except.ok s := by
  refine ⟨by decide, by rfl, by decide, by rfl, ?_⟩
  rintro ⟨s, hs⟩
  rw [show class_docstr c3Class false = Except.error PyErr.keyError
    from rfl] at hs
  cases hs

/-- Variable fragment whose detailed description has no paragraph. -/
def c3NoPara : MemberXml :=
  { c5OnePara with kind := "variable", dd_paras := [] }

/-- Witness for class_docstr_missing_member_raises: the class with the
unmatched variable x raises, and a variable with no description
paragraph parses to the empty detailed description. -/
theorem class_docstr_missing_member_raises_witness :
    (∃ e, class_docstr c3Class false = Except.error e) ∧
    (_parse_variable c3NoPara).detaileddescription = some "" :=
  ⟨(class_docstr_missing_member_raises c3Class).1
      (Or.inl ⟨"x", by decide, by rfl⟩),
    (class_docstr_missing_member_raises c3Class).2 c3NoPara rfl⟩

/-- Parameter items listed in the second detailed-description paragraph
of a function fragment (empty when there is no such paragraph or no
parameter list). -/
def listedParams (x : MemberXml) : List ParamItem :=
  match x.dd_paras.get? 1 with
  | some p => p.plist.getD []
  | none => []

/-- Round-trip property of C4 at one fragment, as the claim words it:
the parser stores each listed parameter description in the resulting
args mapping under that parameter name. -/
def paramDescsRoundTrip (x : MemberXml) : Bool :=
  (listedParams x).all (fun it =>
    match _parse_func x with
    | Except.ok d =>
      match d.args.bind (List.lookup it.name) with
      | some a => a.desc == some it.desc
      | none => false
    | Except.error _ => false)

/-- Folding dictionary writes with pairwise fresh keys just appends the
pairs. -/
theorem foldl_pyDictInsert_append {α β : Type} (f : α → String) (g : α → β) :
    ∀ (l : List α) (acc : List (String × β)),
    (∀ a ∈ l, f a ∉ acc.map Prod.fst) → (l.map f).Nodup →
    l.foldl (fun d it => pyDictInsert d (f it) (g it)) acc =
      acc ++ l.map (fun it => (f it, g it)) := by
  intro l
  induction l with
  | nil =>
    intro acc _ _
    simp
  | cons a as ih =>
    intro acc hfresh hnodup
    have hstep : pyDictInsert acc (f a) (g a) = acc ++ [(f a, g a)] := by
      unfold pyDictInsert
      rw [if_neg]
      intro hc
      exact hfresh a (List.mem_cons_self a as) (by simpa using hc)
    simp only [List.foldl_cons, hstep]
    rw [ih (acc ++ [(f a, g a)]) ?_ ?_]
    · simp
    · intro b hb
      simp only [List.map_append, List.mem_append]
      rintro (hold | hnew)
      · exact hfresh b (List.mem_cons_of_mem a hb) hold
      · have hba : f b = f a := by simpa using hnew
        have : f a ∉ as.map f := (List.nodup_cons.mp (by simpa using hnodup)).1
        exact this (hba ▸ List.mem_map_of_mem f hb)
    · exact (List.nodup_cons.mp (by simpa using hnodup)).2

/-- With an argument-description dict whose keys cover every declared
name, the argument loop of _parse_func succeeds and stores the looked
up description for each declared parameter. -/
theorem argsFoldSome (ad : List (String × String)) :
    ∀ (params : List ParamDecl),
    (∀ p ∈ params, (List.lookup p.declname ad).isSome) →
    ∀ acc, params.foldlM (parseArgStep (some ad)) acc =
      Except.ok (params.foldl (fun acc p => pyDictInsert acc p.declname
        { type := p.type, desc := List.lookup p.declname ad }) acc) := by
  intro params
  induction params with
  | nil =>
    intro _ acc
    rfl
  | cons q qs ih =>
    intro hin acc
    obtain ⟨ds, hds⟩ := Option.isSome_iff_exists.mp
      (hin q (List.mem_cons_self q qs))
    have hstep : parseArgStep (some ad) acc q = Except.ok
        (pyDictInsert acc q.declname
          { type := q.type, desc := List.lookup q.declname ad }) := by
      unfold parseArgStep
      rw [hds]
      simp [orKeyError, Bind.bind, Except.bind, hds]
    rw [List.foldlM_cons, hstep]
    have := ih (fun p hp => hin p (List.mem_cons_of_mem q hp))
      (pyDictInsert acc q.declname
        { type := q.type, desc := List.lookup q.declname ad })
    simpa [Bind.bind, Except.bind] using this

/-- Lookup in a list of pairs built by mapping a key and a value
function over a list. -/
theorem lookup_map_pair {α β : Type} (f : α → String) (g : α → β) (k : String) :
    ∀ (l : List α),
    List.lookup k (l.map (fun a => (f a, g a))) =
      (l.find? (fun a => f a == k)).map g := by
  intro l
  induction l with
  | nil => rfl
  | cons a as ih =>
    simp only [List.map_cons, List.lookup, List.find?]
    by_cases h : f a = k
    · have hb : (k == f a) = true := beq_iff_eq.mpr h.symm
      have hb2 : (f a == k) = true := beq_iff_eq.mpr h
      simp only [hb, hb2]
      rfl
    · have hb : (k == f a) = false := by
        simp only [beq_eq_false_iff_ne, ne_eq]
        intro hq
        exact h hq.symm
      have hb2 : (f a == k) = false := by
        simp only [beq_eq_false_iff_ne, ne_eq]
        exact h
      simp only [hb, hb2, ih]

/-- Lookup of a member of a duplicate-free association list reads its
value. -/
theorem lookup_of_mem_nodup {β : Type} (k : String) (v : β) :
    ∀ (l : List (String × β)), (l.map Prod.fst).Nodup → (k, v) ∈ l →
    List.lookup k l = some v := by
  intro l
  induction l with
  | nil =>
    intro _ h
    simp at h
  | cons p t ih =>
    intro hnodup hmem
    rcases List.mem_cons.mp hmem with h1 | h1
    · rw [← h1]
      simp [List.lookup]
    · have hne : k ≠ p.1 := by
        intro hq
        have : p.1 ∉ t.map Prod.fst :=
          (List.nodup_cons.mp (by simpa using hnodup)).1
        exact this (hq ▸ List.mem_map_of_mem Prod.fst h1)
      have hb : (k == p.1) = false := by simpa using hne
      simp only [List.lookup, hb]
      exact ih (List.nodup_cons.mp (by simpa using hnodup)).2 h1

/-- Lookup of a key that appears in the key list succeeds. -/
theorem lookup_isSome_of_mem_keys {β : Type} (k : String) :
    ∀ (l : List (String × β)), k ∈ l.map Prod.fst →
    (List.lookup k l).isSome := by
  intro l
  induction l with
  | nil =>
    intro h
    simp at h
  | cons p t ih =>
    intro h
    by_cases hk : k = p.1
    · simp [List.lookup, hk]
    · have hb : (k == p.1) = false := by
        simp only [beq_eq_false_iff_ne, ne_eq]
        exact hk
      simp only [List.lookup, hb]
      refine ih ?_
      rcases (by simpa using h : k = p.1 ∨ k ∈ t.map Prod.fst) with h1 | h1
      · exact absurd h1 hk
      · exact h1

/-- Equation of the argument step without an argument-description
dict. -/
theorem parseArgStep_none_eq (acc : List (String × ArgEntry))
    (q : ParamDecl) :
    parseArgStep none acc q = Except.ok
      (pyDictInsert acc q.declname { type := q.type, desc := none }) := rfl

/-- Equation of the argument step with an argument-description dict. -/
theorem parseArgStep_some_eq (d : List (String × String))
    (acc : List (String × ArgEntry)) (q : ParamDecl) :
    parseArgStep (some d) acc q = (do
      let ds ← orKeyError (List.lookup q.declname d)
      Except.ok (pyDictInsert acc q.declname
        { type := q.type, desc := some ds })) := rfl

/-- Every key of a successful argument fold comes from the initial
accumulator or from a declared parameter name. -/
theorem argsFold_keys_sub (ad : Option (List (String × String))) :
    ∀ (params : List ParamDecl) (acc l : List (String × ArgEntry)),
    params.foldlM (parseArgStep ad) acc = Except.ok l →
    ∀ n, n ∈ l.map Prod.fst →
      n ∈ acc.map Prod.fst ∨ n ∈ params.map ParamDecl.declname := by
  intro params
  induction params with
  | nil =>
    intro acc l h n hn
    cases h
    exact Or.inl hn
  | cons q qs ih =>
    intro acc l h n hn
    rw [List.foldlM_cons] at h
    have hstep : ∃ acc2, parseArgStep ad acc q = Except.ok acc2 ∧
        qs.foldlM (parseArgStep ad) acc2 = Except.ok l := by
      cases hs : parseArgStep ad acc q with
      | error e =>
        rw [hs] at h
        simp [Bind.bind, Except.bind] at h
      | ok acc2 =>
        rw [hs] at h
        exact ⟨acc2, rfl, by simpa [Bind.bind, Except.bind] using h⟩
    obtain ⟨acc2, hs, hrest⟩ := hstep
    have hkeys : ∀ m, m ∈ acc2.map Prod.fst →
        m ∈ acc.map Prod.fst ∨ m = q.declname := by
      intro m hm
      cases had : ad with
      | none =>
        subst had
        rw [parseArgStep_none_eq] at hs
        cases hs
        exact (mem_keys_pyDictInsert acc q.declname _ m).mp hm
      | some d =>
        subst had
        rw [parseArgStep_some_eq] at hs
        cases hl : List.lookup q.declname d with
        | none =>
          rw [hl] at hs
          simp [orKeyError, Bind.bind, Except.bind] at hs
        | some ds =>
          rw [hl] at hs
          simp only [orKeyError, Bind.bind, Except.bind] at hs
          cases hs
          exact (mem_keys_pyDictInsert acc q.declname _ m).mp hm
    rcases ih acc2 l hrest n hn with h1 | h1
    · rcases hkeys n h1 with h2 | h2
      · exact Or.inl h2
      · exact Or.inr (by simp [h2])
    · exact Or.inr (List.mem_cons_of_mem _ h1)

/-- A name occurring among the declared names is found by find?. -/
theorem find?_beq_of_mem (n : String) :
    ∀ (params : List ParamDecl), n ∈ params.map ParamDecl.declname →
    ∃ p, params.find? (fun p => p.declname == n) = some p ∧
      p.declname = n := by
  intro params
  induction params with
  | nil =>
    intro h
    simp at h
  | cons q qs ih =>
    intro h
    by_cases hq : q.declname = n
    · refine ⟨q, ?_, hq⟩
      simp [List.find?, beq_iff_eq.mpr hq]
    · have hb : (q.declname == n) = false := by
        simp only [beq_eq_false_iff_ne, ne_eq]
        exact hq
      have h2 : n ∈ qs.map ParamDecl.declname := by
        rcases (by simpa using h :
            n = q.declname ∨ ∃ a ∈ qs, a.declname = n) with h1 | h1
        · exact absurd h1.symm hq
        · simpa using h1
      obtain ⟨p, hp, hpn⟩ := ih h2
      refine ⟨p, ?_, hpn⟩
      simp [List.find?, hb, hp]

/-- Dict built from the listed parameter items, keyed by parameter
name. -/
def listedDict (items : List ParamItem) : List (String × String) :=
  items.map (fun it => (it.name, it.desc))

/-- Value stored for one declared parameter when the descriptions are
looked up in the listed dict. -/
def declEntry (items : List ParamItem) (p : ParamDecl) : ArgEntry :=
  { type := p.type, desc := List.lookup p.declname (listedDict items) }

/-- C4 as amended: for a two-paragraph fragment whose second paragraph
carries a parameter list, parameter descriptions round-trip exactly
into the args mapping keyed by parameter name whenever the listed
names coincide with the declared parameter names (no duplicates on
either side); and the args mapping only ever carries declared names,
so a listed name with no matching declared parameter is silently
dropped. -/
theorem parse_func_param_roundtrip (x : MemberXml) (q0 p1 : Para)
    (items : List ParamItem)
    (hdd : x.dd_paras = [q0, p1])
    (hpl : p1.plist = some items)
    (hnodupL : (items.map ParamItem.name).Nodup)
    (hnodupD : (x.params.map ParamDecl.declname).Nodup) :
    ((∀ n, n ∈ items.map ParamItem.name ↔
        n ∈ x.params.map ParamDecl.declname) →
      paramDescsRoundTrip x = true) ∧
    (∀ d, _parse_func x = Except.ok d → ∀ n,
      n ∉ x.params.map ParamDecl.declname →
      d.args.bind (List.lookup n) = none) := by
  have hADdef : items.foldl (fun d it => pyDictInsert d it.name it.desc)
      ([] : List (String × String)) = listedDict items := by
    have := foldl_pyDictInsert_append ParamItem.name ParamItem.desc items []
      (by intro a _; simp) hnodupL
    simpa [listedDict] using this
  constructor
  · intro hsame
    have hcov : ∀ p ∈ x.params,
        (List.lookup p.declname (listedDict items)).isSome := by
      intro p hp
      apply lookup_isSome_of_mem_keys
      have hk : (listedDict items).map Prod.fst =
          items.map ParamItem.name := by
        simp [listedDict]
      rw [hk]
      exact (hsame p.declname).mpr (List.mem_map_of_mem _ hp)
    have hfold := argsFoldSome (listedDict items) x.params hcov []
    have hpure : x.params.foldl (fun acc p => pyDictInsert acc p.declname
        { type := p.type, desc := List.lookup p.declname (listedDict items) })
        [] = x.params.map (fun p => (p.declname, declEntry items p)) := by
      have := foldl_pyDictInsert_append ParamDecl.declname
        (declEntry items) x.params [] (by intro a _; simp) hnodupD
      simpa [declEntry] using this
    have hlist : listedParams x = items := by
      unfold listedParams
      rw [hdd]
      simp [hpl]
    unfold paramDescsRoundTrip
    unfold _parse_func
    simp only [hdd, hlist, List.length_cons, List.length_nil,
      List.head?_cons, orIndexError, Bind.bind, Except.bind, hpl,
      hADdef, hfold, hpure]
    norm_num
    simp only [hpl, hADdef, hfold, hpure]
    intro it hit
    by_cases hemp : x.params = []
    · exfalso
      have hmem : it.name ∈ x.params.map ParamDecl.declname :=
        (hsame it.name).mp (List.mem_map_of_mem _ hit)
      rw [hemp] at hmem
      simp at hmem
    · have hlen : ¬ x.params.map
          (fun p => (p.declname, declEntry items p)) = [] := by
        simp [hemp]
      rw [if_neg hlen]
      simp only [Option.some_bind]
      obtain ⟨p, hp, hpn⟩ := find?_beq_of_mem it.name x.params
        ((hsame it.name).mp (List.mem_map_of_mem _ hit))
      rw [lookup_map_pair ParamDecl.declname (declEntry items), hp]
      have hdesc : List.lookup it.name (listedDict items) = some it.desc := by
        apply lookup_of_mem_nodup
        · simpa [listedDict] using hnodupL
        · exact List.mem_map_of_mem _ hit
      simp [declEntry, hpn, hdesc]
  · intro d hok n hnd
    unfold _parse_func at hok
    simp only [hdd, List.length_cons, List.length_nil, List.head?_cons,
      orIndexError, Bind.bind, Except.bind, hpl] at hok
    norm_num at hok
    simp only [hpl, hADdef] at hok
    cases hL : List.foldlM (parseArgStep (some (listedDict items)))
        [] x.params with
    | error e =>
      rw [hL] at hok
      simp at hok
    | ok L =>
      rw [hL] at hok
      simp only [] at hok
      have hd : d = { emptyFuncDict with
          detaileddescription := q0.text
          ret_type := x.type
          args := if L = [] then none else some L
          arg_string := x.argsstring } := by
        cases hok
        rfl
      rw [hd]
      by_cases h0 : L = []
      · simp [h0]
      · simp only [h0, if_neg, Option.bind_some]
        apply lookup_eq_none_of_not_mem
        intro hmem
        rcases argsFold_keys_sub _ x.params [] L hL n hmem with h1 | h1
        · simp at h1
        · exact hnd h1

/-- Two-paragraph fragment whose parameter list documents a parameter
b that is not among the declared parameters. -/
def c4Frag : MemberXml :=
  { id := "m1"
    kind := "function"
    name := "f"
    dd_paras :=
      [⟨some "Free text.", none⟩,
        ⟨none, some [⟨"a", "da"⟩, ⟨"b", "db"⟩]⟩]
    type := some "int"
    params := [{ declname := "a", type := some "int" }]
    argsstring := some "(int a)"
    brief_para := some (some "Brief.")
    definition := some "int f" }

/-- Counterexample to C4: at this two-paragraph fragment with a
parameter list, the parser succeeds and stores a description for a,
but the listed description of b is stored nowhere (b has no entry in
the args mapping), so parameter descriptions do not round-trip for
every listed parameter. -/
theorem parse_func_param_roundtrip_counterexample :
    c4Frag.dd_paras.length = 2 ∧
    (listedParams c4Frag).map ParamItem.name = ["a", "b"] ∧
    (_parse_func c4Frag).toOption.isSome = true ∧
    ((_parse_func c4Frag).toOption.bind
      (fun d => d.args.bind (List.lookup "a"))).isSome = true ∧
    ((_parse_func c4Frag).toOption.bind
      (fun d => d.args.bind (List.lookup "b"))) = none ∧
    paramDescsRoundTrip c4Frag = false := by
  refine ⟨by decide, by decide, by decide, by decide, by decide, by decide⟩

/-- Two-paragraph fragment whose listed names coincide with the
declared names. -/
def c4Good : MemberXml :=
  { c4Frag with
    params :=
      [{ declname := "a", type := some "int" },
        { declname := "b", type := some "float" }] }

/-- Witness for parse_func_param_roundtrip: with listed names equal to
declared names the descriptions round-trip, and an undeclared name has
no entry in the args mapping. -/
theorem parse_func_param_roundtrip_witness :
    paramDescsRoundTrip c4Good = true ∧
    ((_parse_func c4Good).toOption.bind
      (fun d => d.args.bind (List.lookup "zz"))) = none := by
  have main := parse_func_param_roundtrip c4Good
    ⟨some "Free text.", none⟩
    ⟨none, some [⟨"a", "da"⟩, ⟨"b", "db"⟩]⟩
    [⟨"a", "da"⟩, ⟨"b", "db"⟩]
    rfl rfl (by decide) (by decide)
  refine ⟨main.1 ?_, ?_⟩
  · intro n
    rw [show List.map ParamItem.name
        ([⟨"a", "da"⟩, ⟨"b", "db"⟩] : List ParamItem) = ["a", "b"] from rfl,
      show List.map ParamDecl.declname c4Good.params = ["a", "b"] from rfl]
  cases hpfc : _parse_func c4Good with
  | error e => simp [Except.toOption]
  | ok d =>
    have h2 := main.2 d hpfc "zz" (by decide)
    simp [Except.toOption, h2]

/-- The digit accumulator of Nat.toDigitsCore never shrinks. -/
theorem toDigitsCore_length_mono (b : Nat) :
    ∀ (fuel n : Nat) (ds : List Char),
    ds.length ≤ (Nat.toDigitsCore b fuel n ds).length := by
  intro fuel
  induction fuel with
  | zero =>
    intro n ds
    simp [Nat.toDigitsCore]
  | succ f ih =>
    intro n ds
    unfold Nat.toDigitsCore
    by_cases h : n / b = 0
    · simp [h]
    · simp only [h, if_neg, not_false_iff]
      calc ds.length ≤ (Nat.digitChar (n % b) :: ds).length := by simp
        _ ≤ _ := ih (n / b) _

/-- Decimal digit lists are never empty. -/
theorem toDigits_ne_nil (b n : Nat) : Nat.toDigits b n ≠ [] := by
  unfold Nat.toDigits
  unfold Nat.toDigitsCore
  by_cases h : n / b = 0
  · simp [h]
  · simp only [h, if_neg, not_false_iff]
    intro hc
    have hlen := toDigitsCore_length_mono b n (n / b)
      [Nat.digitChar (n % b)]
    rw [hc] at hlen
    simp at hlen

/-- The decimal rendering of a natural number is never the empty
string. -/
theorem toString_nat_ne_empty (n : Nat) : (toString n : String) ≠ "" := by
  show Nat.repr n ≠ ""
  intro h
  have hd := congrArg String.data h
  simp only [Nat.repr, List.asString] at hd
  exact toDigits_ne_nil 10 n hd

/-- A nonempty string has a nonempty character list. -/
theorem string_data_ne_nil (s : String) (h : s ≠ "") : s.data ≠ [] := by
  intro hc
  apply h
  cases s with
  | mk l =>
    cases hc
    rfl

/-- Appending a nonempty string yields a nonempty string. -/
theorem append_ne_empty_of_right (a b : String) (h : b ≠ "") :
    a ++ b ≠ "" := by
  intro hc
  have hd := congrArg String.data hc
  rw [String.data_append] at hd
  have : b.data = [] := by
    cases hb : b.data with
    | nil => rfl
    | cons c t =>
      rw [hb] at hd
      simp at hd
  exact string_data_ne_nil b h this

/-- Dropping the last character of an append with a nonempty right part
only shortens the right part. -/
theorem pyDropLastChar_append (name ds : String) (h : ds ≠ "") :
    pyDropLastChar (name ++ ds) = name ++ String.mk ds.data.dropLast := by
  unfold pyDropLastChar
  rw [String.data_append]
  rw [List.dropLast_append_of_ne_nil name.data (string_data_ne_nil ds h)]
  apply String.ext
  rw [String.data_append]

/-- The duplicate-name loop only ever returns a name that is not yet a
key. -/
theorem add_suffix_loop_not_mem (keys : List String) :
    ∀ (fuel : Nat) (mem_name : String) (i : Nat) (k : String),
    add_suffix_loop keys fuel mem_name i = some k → k ∉ keys := by
  intro fuel
  induction fuel with
  | zero =>
    intro mem_name i k h
    simp [add_suffix_loop] at h
  | succ f ih =>
    intro mem_name i k h
    unfold add_suffix_loop at h
    by_cases hmem : mem_name ∈ keys
    · rw [if_pos hmem] at h
      exact ih _ _ k h
    · rw [if_neg hmem] at h
      cases h
      exact hmem

/-- From its second iteration on, the duplicate-name loop keeps the
original name as a strict prefix of the candidate. -/
theorem add_suffix_loop_extends (keys : List String) :
    ∀ (fuel : Nat) (name ds : String) (i : Nat) (k : String), ds ≠ "" →
    2 ≤ i → add_suffix_loop keys fuel (name ++ ds) i = some k →
    ∃ ds2, ds2 ≠ "" ∧ k = name ++ ds2 := by
  intro fuel
  induction fuel with
  | zero =>
    intro name ds i k _ _ h
    simp [add_suffix_loop] at h
  | succ f ih =>
    intro name ds i k hds hi h
    unfold add_suffix_loop at h
    by_cases hmem : (name ++ ds) ∈ keys
    · rw [if_pos hmem] at h
      rw [if_pos (by omega : 1 < i)] at h
      rw [pyDropLastChar_append name ds hds] at h
      have h2 : add_suffix_loop keys f
          ((name ++ String.mk ds.data.dropLast) ++ toString i) (i + 1) =
          some k := h
      rw [String.append_assoc] at h2
      exact ih name (String.mk ds.data.dropLast ++ toString i) (i + 1) k
        (append_ne_empty_of_right _ _ (toString_nat_ne_empty i))
        (by omega) h2
    · rw [if_neg hmem] at h
      cases h
      exact ⟨ds, hds, rfl⟩

/-- Appending a nonempty suffix changes the string. -/
theorem string_ne_append_of_ne_empty (name ds : String) (h : ds ≠ "") :
    name ++ ds ≠ name := by
  intro hc
  have hd := congrArg String.data hc
  rw [String.data_append] at hd
  have : ds.data = [] := by
    have := congrArg List.length hd
    simp at this
    exact List.length_eq_zero.mp this
  exact string_data_ne_nil ds h this

/-- The stored key is never an existing key, so no entry is
overwritten. -/
theorem sec_new_key_fresh (keys : List String) (name k : String)
    (h : sec_new_key keys name = some k) : k ∉ keys :=
  add_suffix_loop_not_mem keys _ name 1 k h

/-- A name that is not yet a key is stored under itself. -/
theorem sec_new_key_of_not_mem (keys : List String) (name : String)
    (h : name ∉ keys) : sec_new_key keys name = some name := by
  simp [sec_new_key, add_suffix_loop, h]

/-- A duplicated name is stored under a strict extension of itself. -/
theorem sec_new_key_prefix (keys : List String) (name k : String)
    (h1 : name ∈ keys) (h : sec_new_key keys name = some k) :
    name.data.isPrefixOf k.data = true ∧ k ≠ name := by
  have hfresh := sec_new_key_fresh keys name k h
  have hne : k ≠ name := by
    intro hc
    rw [hc] at hfresh
    exact hfresh h1
  refine ⟨?_, hne⟩
  unfold sec_new_key at h
  unfold add_suffix_loop at h
  rw [if_pos h1] at h
  have h2 : add_suffix_loop keys keys.length
      ((if 1 < 1 then pyDropLastChar name else name) ++ toString 1) 2 =
      some k := h
  rw [if_neg (by omega)] at h2
  obtain ⟨ds2, hds2, hk⟩ := add_suffix_loop_extends keys keys.length name
    (toString 1) 2 k (toString_nat_ne_empty 1) (by omega) h2
  rw [hk, String.data_append]
  exact List.isPrefixOf_iff_prefix.mpr (List.prefix_append _ _)

/-- The first duplicate of a name gets the suffix 1. -/
theorem sec_new_key_first_dup (keys : List String) (name : String)
    (h1 : name ∈ keys) (h2 : name ++ "1" ∉ keys) :
    sec_new_key keys name = some (name ++ "1") := by
  unfold sec_new_key
  cases keys with
  | nil => simp at h1
  | cons kh kt =>
    have hts : (toString 1 : String) = "1" := rfl
    simp [add_suffix_loop, h1, h2, hts]

/-- The second duplicate of a name gets the suffix 2. -/
theorem sec_new_key_second_dup (keys : List String) (name : String)
    (h1 : name ∈ keys) (h1b : name ++ "1" ∈ keys)
    (h2 : name ++ "2" ∉ keys) :
    sec_new_key keys name = some (name ++ "2") := by
  have hnen : name ++ "1" ≠ name :=
    string_ne_append_of_ne_empty name "1" (by decide)
  have hdrop : pyDropLastChar (name ++ "1") = name := by
    rw [pyDropLastChar_append name "1" (by decide)]
    show name ++ "" = name
    apply String.ext
    rw [String.data_append]
    simp [show ("" : String).data = [] from rfl]
  unfold sec_new_key
  cases keys with
  | nil => simp at h1
  | cons kh kt =>
    cases kt with
    | nil =>
      exfalso
      simp at h1 h1b
      rw [← h1] at h1b
      exact hnen h1b
    | cons k2 kt2 =>
      have hts : (toString 1 : String) = "1" := rfl
      have hts2 : (toString 2 : String) = "2" := rfl
      simp [add_suffix_loop, h1, h1b, h2, hts, hts2, hdrop]

/-- C9 as amended: inserting a member never overwrites an existing
entry: the member is appended under a key that is not yet present; a
fresh name keeps its own name as key, a duplicated name gets a key that
strictly extends it, the first duplicate getting suffix 1 and the
second suffix 2.  Beyond the tenth duplicate the suffix sequence
deviates from the claimed 1, 2, 3, and so on (see the counterexample),
but the key stays fresh, so every member definition is preserved under
its own key. -/
theorem parse_member_never_overwrites (sec_dict : List (String × FuncDict))
    (mem : MemberXml) :
    (∀ sec2, parse_member_into sec_dict mem = Except.ok sec2 →
      ∃ key mem_dict, sec2 = sec_dict ++ [(key, mem_dict)] ∧
        key ∉ sec_dict.map Prod.fst ∧
        (mem.name ∉ sec_dict.map Prod.fst → key = mem.name) ∧
        (mem.name ∈ sec_dict.map Prod.fst →
          mem.name.data.isPrefixOf key.data = true ∧ key ≠ mem.name)) ∧
    (mem.name ∈ sec_dict.map Prod.fst →
      mem.name ++ "1" ∉ sec_dict.map Prod.fst →
      sec_new_key (sec_dict.map Prod.fst) mem.name =
        some (mem.name ++ "1")) ∧
    (mem.name ∈ sec_dict.map Prod.fst →
      mem.name ++ "1" ∈ sec_dict.map Prod.fst →
      mem.name ++ "2" ∉ sec_dict.map Prod.fst →
      sec_new_key (sec_dict.map Prod.fst) mem.name =
        some (mem.name ++ "2")) := by
  refine ⟨?_, sec_new_key_first_dup _ _, sec_new_key_second_dup _ _⟩
  intro sec2 h
  unfold parse_member_into at h
  obtain ⟨md, hmd, h⟩ := bind_ok_destruct h
  obtain ⟨key, hkey, h⟩ := bind_ok_destruct h
  unfold resolveKey at hkey
  cases hsk : sec_new_key (sec_dict.map Prod.fst) mem.name with
  | none =>
    rw [hsk] at hkey
    simp at hkey
  | some k =>
    rw [hsk] at hkey
    have hkk : key = k := by
      cases hkey
      rfl
    subst hkk
    cases h
    refine ⟨key, _parse_common mem md, rfl,
      sec_new_key_fresh _ _ _ hsk, ?_, ?_⟩
    · intro hnm
      have hv := sec_new_key_of_not_mem (sec_dict.map Prod.fst) mem.name hnm
      rw [hsk] at hv
      exact Option.some_inj.mp hv
    · intro hmem
      exact sec_new_key_prefix _ _ _ hmem hsk


/-- Variable member named f, used to exercise the duplicate-name
loop. -/
def c9Mem : MemberXml :=
  { id := "v"
    kind := "variable"
    name := "f"
    dd_paras := []
    type := some "int"
    params := []
    argsstring := none
    brief_para := none
    definition := some "int f" }

/-- Section holding twelve members all named f. -/
def c9Sec : SectionXml :=
  { kind := "public-attrib", members := List.replicate 12 c9Mem }

/-- Counterexample to C9 as stated: inserting twelve members named f,
the eleventh duplicate is keyed f111, not the claimed suffix sequence
value f11, because the loop strips only one trailing character while
the counter has reached two digits.  No key is ever overwritten (they
are twelve and pairwise distinct), but the first-1-next-2-and-so-on
suffix law fails at the eleventh duplicate. -/
theorem duplicate_suffix_counterexample :
    (parse_section c9Sec).map (fun l => l.map Prod.fst) =
      Except.ok ["f", "f1", "f2", "f3", "f4", "f5", "f6", "f7", "f8",
        "f9", "f10", "f111"] ∧
    "f" ++ toString 11 = "f11" ∧
    "f11" ∉ (["f", "f1", "f2", "f3", "f4", "f5", "f6", "f7", "f8",
      "f9", "f10", "f111"] : List String) ∧
    (["f", "f1", "f2", "f3", "f4", "f5", "f6", "f7", "f8",
      "f9", "f10", "f111"] : List String).Nodup := by
  refine ⟨by rfl, by rfl, by decide, by decide⟩

/-- Member dictionary stored for c9Mem. -/
def c9Dict : FuncDict := _parse_common c9Mem (_parse_variable c9Mem)

/-- Section dictionary already holding one entry named f. -/
def c9Sec1 : List (String × FuncDict) := [("f", c9Dict)]

/-- Section dictionary already holding entries f and f1. -/
def c9Sec2 : List (String × FuncDict) := [("f", c9Dict), ("f1", c9Dict)]

/-- Witness for parse_member_never_overwrites: inserting a duplicate f
into a section already holding f appends a fresh entry under f1, and
with f and f1 both present the next key is f2. -/
theorem parse_member_never_overwrites_witness :
    (∃ key mem_dict,
      c9Sec1 ++ [("f1", c9Dict)] = c9Sec1 ++ [(key, mem_dict)] ∧
      key ∉ c9Sec1.map Prod.fst ∧
      (c9Mem.name ∉ c9Sec1.map Prod.fst → key = c9Mem.name) ∧
      (c9Mem.name ∈ c9Sec1.map Prod.fst →
        c9Mem.name.data.isPrefixOf key.data = true ∧ key ≠ c9Mem.name)) ∧
    sec_new_key (c9Sec1.map Prod.fst) c9Mem.name =
      some (c9Mem.name ++ "1") ∧
    sec_new_key (c9Sec2.map Prod.fst) c9Mem.name =
      some (c9Mem.name ++ "2") :=
  ⟨(parse_member_never_overwrites c9Sec1 c9Mem).1
      (c9Sec1 ++ [("f1", c9Dict)]) (by rfl),
    (parse_member_never_overwrites c9Sec1 c9Mem).2.1 (by decide) (by decide),
    (parse_member_never_overwrites c9Sec2 c9Mem).2.2 (by decide) (by decide)
      (by decide)⟩
